import Mathlib

/-!
Verification of the node-python execution core.

This file gives a shallow embedding, in Lean 4, of the algorithmic core of the
repository:

* the JSON value domain used on the wire between the controller and the
  isolated interpreter (Python's json.dumps / json.loads, restricted to the
  integer-valued JSON fragment the claims exercise; floats and \u escapes are
  outside the model),
* the embedded executor (src/core/engine/embedded_executor.py): function-name
  extraction, driver-script assembly, the result/error marker protocol and
  execute_node's process lifecycle (the OS process itself is a parameter,
  plus an explicit model of the generated driver script's behaviour),
* the sandbox safety checker (src/utils/sandbox.py) over a Python AST model
  (ast.parse is the model boundary: the checker is embedded on parsed trees),
* the dependency scheduler (src/core/engine/graph_executor.py):
  topological_sort (Kahn's variant with per-port in-degree counting) and
  execute_graph (statuses, kwargs threading, continue-on-error), over a graph
  of node ids, input-port name lists and a connection list.

Conventions: Python dicts keyed by nodes become total functions out of node
ids together with a node-id list; a port's `connections` list is derived from
the graph's connection list (an input port (n, p) owns the connections whose
end is (n, p), in list order); machine-level concerns (Qt repaints, logging,
temp-file system calls) are dropped as effect-free for the claims.
-/

/-! # The JSON value domain -/

/-- JSON values, the wire domain of the marker protocol.  Numbers are
restricted to integers (the claims only exercise integer payloads). -/
inductive Json where
  | null : Json
  | bool (b : Bool) : Json
  | num (n : Int) : Json
  | str (s : String) : Json
  | arr (elems : List Json) : Json
  | obj (fields : List (String × Json)) : Json
deriving Repr

mutual

def Json.beq : Json → Json → Bool
  | .null, .null => true
  | .bool a, .bool b => a == b
  | .num a, .num b => a == b
  | .str a, .str b => a == b
  | .arr a, .arr b => Json.beqList a b
  | .obj a, .obj b => Json.beqFields a b
  | _, _ => false

def Json.beqList : List Json → List Json → Bool
  | [], [] => true
  | a :: as, b :: bs => Json.beq a b && Json.beqList as bs
  | _, _ => false

def Json.beqFields : List (String × Json) → List (String × Json) → Bool
  | [], [] => true
  | (k, v) :: as, (l, w) :: bs => k == l && Json.beq v w && Json.beqFields as bs
  | _, _ => false

end

mutual

theorem Json.beq_refl : ∀ j : Json, Json.beq j j = true
  | .null => rfl
  | .bool b => by simp [Json.beq]
  | .num n => by simp [Json.beq]
  | .str s => by simp [Json.beq]
  | .arr l => by simp [Json.beq, Json.beqList_refl l]
  | .obj l => by simp [Json.beq, Json.beqFields_refl l]

theorem Json.beqList_refl : ∀ l : List Json, Json.beqList l l = true
  | [] => rfl
  | a :: as => by simp [Json.beqList, Json.beq_refl a, Json.beqList_refl as]

theorem Json.beqFields_refl : ∀ l : List (String × Json), Json.beqFields l l = true
  | [] => rfl
  | (k, v) :: as => by
      simp [Json.beqFields, Json.beq_refl v, Json.beqFields_refl as]

end

mutual

theorem Json.eq_of_beq : ∀ {a b : Json}, Json.beq a b = true → a = b
  | .null, .null, _ => rfl
  | .bool _, .bool _, h => by
      simp [Json.beq] at h; simp [h]
  | .num _, .num _, h => by
      simp [Json.beq] at h; simp [h]
  | .str _, .str _, h => by
      simp [Json.beq] at h; simp [h]
  | .arr a, .arr b, h => by
      simp [Json.beq] at h
      exact congrArg Json.arr (Json.eqList_of_beq h)
  | .obj a, .obj b, h => by
      simp [Json.beq] at h
      exact congrArg Json.obj (Json.eqFields_of_beq h)
  | .null, .bool _, h => by simp [Json.beq] at h
  | .null, .num _, h => by simp [Json.beq] at h
  | .null, .str _, h => by simp [Json.beq] at h
  | .null, .arr _, h => by simp [Json.beq] at h
  | .null, .obj _, h => by simp [Json.beq] at h
  | .bool _, .null, h => by simp [Json.beq] at h
  | .bool _, .num _, h => by simp [Json.beq] at h
  | .bool _, .str _, h => by simp [Json.beq] at h
  | .bool _, .arr _, h => by simp [Json.beq] at h
  | .bool _, .obj _, h => by simp [Json.beq] at h
  | .num _, .null, h => by simp [Json.beq] at h
  | .num _, .bool _, h => by simp [Json.beq] at h
  | .num _, .str _, h => by simp [Json.beq] at h
  | .num _, .arr _, h => by simp [Json.beq] at h
  | .num _, .obj _, h => by simp [Json.beq] at h
  | .str _, .null, h => by simp [Json.beq] at h
  | .str _, .bool _, h => by simp [Json.beq] at h
  | .str _, .num _, h => by simp [Json.beq] at h
  | .str _, .arr _, h => by simp [Json.beq] at h
  | .str _, .obj _, h => by simp [Json.beq] at h
  | .arr _, .null, h => by simp [Json.beq] at h
  | .arr _, .bool _, h => by simp [Json.beq] at h
  | .arr _, .num _, h => by simp [Json.beq] at h
  | .arr _, .str _, h => by simp [Json.beq] at h
  | .arr _, .obj _, h => by simp [Json.beq] at h
  | .obj _, .null, h => by simp [Json.beq] at h
  | .obj _, .bool _, h => by simp [Json.beq] at h
  | .obj _, .num _, h => by simp [Json.beq] at h
  | .obj _, .str _, h => by simp [Json.beq] at h
  | .obj _, .arr _, h => by simp [Json.beq] at h

theorem Json.eqList_of_beq : ∀ {a b : List Json}, Json.beqList a b = true → a = b
  | [], [], _ => rfl
  | x :: xs, y :: ys, h => by
      simp only [Json.beqList, Bool.and_eq_true] at h
      rw [Json.eq_of_beq h.1, Json.eqList_of_beq h.2]
  | [], _ :: _, h => by simp [Json.beqList] at h
  | _ :: _, [], h => by simp [Json.beqList] at h

theorem Json.eqFields_of_beq :
    ∀ {a b : List (String × Json)}, Json.beqFields a b = true → a = b
  | [], [], _ => rfl
  | (k, v) :: xs, (l, w) :: ys, h => by
      simp only [Json.beqFields, Bool.and_eq_true, beq_iff_eq] at h
      rw [h.1.1, Json.eq_of_beq h.1.2, Json.eqFields_of_beq h.2]
  | [], _ :: _, h => by simp [Json.beqFields] at h
  | _ :: _, [], h => by simp [Json.beqFields] at h

end

instance : DecidableEq Json := fun a b =>
  if h : Json.beq a b = true then
    .isTrue (Json.eq_of_beq h)
  else
    .isFalse (fun he => h (he ▸ Json.beq_refl a))

/-! ## json.dumps

Models Python `json.dumps(v, ensure_ascii=False)` with the default
separators (", " between items, ": " after keys).  Note that the single
quote is NOT escaped -- only the double quote, the backslash and control
characters are -- which is what claim C10 turns on. -/

/-- One character of a JSON string literal as json.dumps emits it. -/
def escJsonChar (c : Char) : String :=
  if c = '"' then "\\\""
  else if c = '\\' then "\\\\"
  else if c = '\n' then "\\n"
  else if c = '\t' then "\\t"
  else if c = '\r' then "\\r"
  else String.singleton c

/-- Body of a JSON string literal (without the surrounding quotes). -/
def escJsonString (s : String) : String :=
  String.join (s.data.map escJsonChar)

mutual

/-- Python json.dumps (ensure_ascii=False, default separators). -/
def jsonDumps : Json → String
  | .null => "null"
  | .bool true => "true"
  | .bool false => "false"
  | .num n => toString n
  | .str s => "\"" ++ escJsonString s ++ "\""
  | .arr l => "[" ++ jsonDumpsElems l ++ "]"
  | .obj l => "\x7b" ++ jsonDumpsFields l ++ "\x7d"

def jsonDumpsElems : List Json → String
  | [] => ""
  | [x] => jsonDumps x
  | x :: y :: rest => jsonDumps x ++ ", " ++ jsonDumpsElems (y :: rest)

def jsonDumpsFields : List (String × Json) → String
  | [] => ""
  | [(k, v)] => "\"" ++ escJsonString k ++ "\": " ++ jsonDumps v
  | (k, v) :: y :: rest =>
      "\"" ++ escJsonString k ++ "\": " ++ jsonDumps v ++ ", "
        ++ jsonDumpsFields (y :: rest)

end

/-! ## json.loads -/

/-- The four whitespace characters JSON ignores between tokens. -/
def isJsonWs (c : Char) : Bool :=
  c = ' ' || c = '\t' || c = '\n' || c = '\r'

/-- Skip leading JSON whitespace. -/
def skipWs : List Char → List Char
  | [] => []
  | c :: cs => if isJsonWs c then skipWs cs else c :: cs

/-- Parse the body of a JSON string literal after the opening quote,
returning the decoded string and the input after the closing quote.
The \u escape is outside the model. -/
def parseStringBody : List Char → Option (String × List Char)
  | [] => none
  | c :: cs =>
    if c = '"' then some ("", cs)
    else if c = '\\' then
      match cs with
      | [] => none
      | e :: cs' =>
        let esc : Option Char :=
          if e = '"' then some '"'
          else if e = '\\' then some '\\'
          else if e = '/' then some '/'
          else if e = 'n' then some '\n'
          else if e = 't' then some '\t'
          else if e = 'r' then some '\r'
          else if e = 'b' then some (Char.ofNat 8)
          else if e = 'f' then some (Char.ofNat 12)
          else none
        match esc with
        | none => none
        | some ch =>
          match parseStringBody cs' with
          | none => none
          | some (s, rest) => some (String.singleton ch ++ s, rest)
    else if c.toNat < 32 then none
    else
      match parseStringBody cs with
      | none => none
      | some (s, rest) => some (String.singleton c ++ s, rest)

/-- Digits to a natural number. -/
def digitsToNat (ds : List Char) : Nat :=
  ds.foldl (fun a c => a * 10 + (c.toNat - 48)) 0

/-- Parse a JSON number.  Floats are outside the model (the claims only
exercise integer payloads); a fractional part or exponent is rejected. -/
def parseNumber (cs : List Char) : Option (Json × List Char) :=
  let p : Bool × List Char :=
    match cs with
    | '-' :: rest => (true, rest)
    | _ => (false, cs)
  let ds := p.2.takeWhile (fun c => c.isDigit)
  let rest := p.2.dropWhile (fun c => c.isDigit)
  if ds.isEmpty then none
  else
    match rest with
    | '.' :: _ => none
    | 'e' :: _ => none
    | 'E' :: _ => none
    | _ =>
      let n : Int := (digitsToNat ds : Int)
      some (.num (if p.1 then -n else n), rest)

/-- Consume an expected literal tail (e.g. "rue" after a 't'). -/
def dropLead (pat : List Char) (cs : List Char) : Option (List Char) :=
  if pat.isPrefixOf cs then some (cs.drop pat.length) else none

mutual

/-- Fueled recursive-descent JSON value parser. -/
def parseValue : Nat → List Char → Option (Json × List Char)
  | 0, _ => none
  | fuel+1, cs =>
    match skipWs cs with
    | [] => none
    | c :: rest =>
      if c = '"' then
        match parseStringBody rest with
        | none => none
        | some (s, r) => some (.str s, r)
      else if c = '[' then
        match skipWs rest with
        | ']' :: r => some (.arr [], r)
        | r => parseElems fuel r []
      else if c = '\x7b' then
        match skipWs rest with
        | '\x7d' :: r => some (.obj [], r)
        | r => parseMembers fuel r []
      else if c = 't' then
        (dropLead "rue".data rest).map (fun r => (.bool true, r))
      else if c = 'f' then
        (dropLead "alse".data rest).map (fun r => (.bool false, r))
      else if c = 'n' then
        (dropLead "ull".data rest).map (fun r => (.null, r))
      else parseNumber (c :: rest)

/-- Comma-separated array elements, after at least one element is due. -/
def parseElems : Nat → List Char → List Json → Option (Json × List Char)
  | 0, _, _ => none
  | fuel+1, cs, acc =>
    match parseValue fuel cs with
    | none => none
    | some (v, r) =>
      match skipWs r with
      | ',' :: r2 => parseElems fuel r2 (acc ++ [v])
      | ']' :: r2 => some (.arr (acc ++ [v]), r2)
      | _ => none

/-- Comma-separated object members, after at least one member is due. -/
def parseMembers :
    Nat → List Char → List (String × Json) → Option (Json × List Char)
  | 0, _, _ => none
  | fuel+1, cs, acc =>
    match skipWs cs with
    | '"' :: r =>
      match parseStringBody r with
      | none => none
      | some (k, r1) =>
        match skipWs r1 with
        | ':' :: r2 =>
          match parseValue fuel r2 with
          | none => none
          | some (v, r3) =>
            match skipWs r3 with
            | ',' :: r4 => parseMembers fuel r4 (acc ++ [(k, v)])
            | '\x7d' :: r4 => some (.obj (acc ++ [(k, v)]), r4)
            | _ => none
        | _ => none
    | _ => none

end

/-- Python json.loads on the modelled JSON fragment: parse one value and
require only whitespace to remain. -/
def jsonLoads (s : String) : Option Json :=
  match parseValue (s.length + 1) s.data with
  | none => none
  | some (v, rest) => if (skipWs rest).isEmpty then some v else none

/-- Python truthiness on the JSON value domain (bool(x) for the
corresponding Python value). -/
def pyTruthy : Json → Bool
  | .null => false
  | .bool b => b
  | .num n => n != 0
  | .str s => !s.isEmpty
  | .arr l => !l.isEmpty
  | .obj l => !l.isEmpty

/-- dict.get on a decoded JSON object: the last binding wins, as in a dict
built by successive insertion while decoding. -/
def jGet (fields : List (String × Json)) (k : String) : Option Json :=
  (fields.reverse.find? (fun p => p.1 == k)).map (fun p => p.2)

/-- Key membership test of a decoded JSON object (Python `k in d`). -/
def jHasKey (fields : List (String × Json)) (k : String) : Bool :=
  fields.any (fun p => p.1 == k)

mutual

/-- Python repr() of a decoded JSON value (strings quoted; modeled up to
string-escape details, which no claim exercises). -/
def pyReprOf : Json → String
  | .null => "None"
  | .bool true => "True"
  | .bool false => "False"
  | .num n => toString n
  | .str s => "\x27" ++ s ++ "\x27"
  | .arr l => "[" ++ pyReprElems l ++ "]"
  | .obj l => "\x7b" ++ pyReprFields l ++ "\x7d"

def pyReprElems : List Json → String
  | [] => ""
  | [x] => pyReprOf x
  | x :: y :: rest => pyReprOf x ++ ", " ++ pyReprElems (y :: rest)

def pyReprFields : List (String × Json) → String
  | [] => ""
  | [(k, v)] => "\x27" ++ k ++ "\x27: " ++ pyReprOf v
  | (k, v) :: y :: rest =>
      "\x27" ++ k ++ "\x27: " ++ pyReprOf v ++ ", " ++ pyReprFields (y :: rest)

end

/-- Python str() of a decoded JSON value, used where the source passes a
decoded payload field to str()/RuntimeError. -/
def pyStrOf : Json → String
  | .str s => s
  | j => pyReprOf j

/-! # String helpers shared by the executor model -/

/-- Python str.strip character class (ASCII whitespace). -/
def isPyWs (c : Char) : Bool :=
  c = ' ' || c = '\t' || c = '\n' || c = '\r' || c = '\x0c' || c = '\x0b'

/-- Python str.strip on a character list. -/
def pyStripChars (cs : List Char) : List Char :=
  ((cs.dropWhile isPyWs).reverse.dropWhile isPyWs).reverse

/-- Python str.strip. -/
def pyStrip (s : String) : String :=
  ⟨pyStripChars s.data⟩

/-- Python str.find: index of the first occurrence of pat, or none. -/
def findSubstr (pat : List Char) : List Char → Option Nat
  | [] => if pat.isEmpty then some 0 else none
  | c :: t =>
    if pat.isPrefixOf (c :: t) then some 0
    else (findSubstr pat t).map (fun i => i + 1)

/-- Bool substring test (Python `pat in s`). -/
def containsSubstr (s pat : String) : Bool :=
  (findSubstr pat.data s.data).isSome

/-- Split a character list at a separator character (Python str.split with
a one-character separator: keeps empty pieces, one more piece than
separators). -/
def splitOnChar (sep : Char) : List Char → List (List Char)
  | [] => [[]]
  | c :: rest =>
    match splitOnChar sep rest with
    | [] => [[]]
    | l :: ls => if c = sep then [] :: l :: ls else (c :: l) :: ls

/-- Python s.split(chr(10)) as a list of strings. -/
def splitNl (s : String) : List String :=
  (splitOnChar (Char.ofNat 10) s.data).map (fun cs => (⟨cs⟩ : String))

/-! # Embedded executor (src/core/engine/embedded_executor.py) -/

/-- Identifier start class of the extraction pattern: [a-zA-Z_]. -/
def isIdentStart (c : Char) : Bool :=
  c.isAlpha || c = '_'

/-- Identifier continuation class: [a-zA-Z0-9_]. -/
def isIdentChar (c : Char) : Bool :=
  c.isAlphanum || c = '_'

/-- The regex \s class on the modelled ASCII fragment: space, tab,
newline, carriage return, form feed, vertical tab.  In particular it
contains the newline -- re.MULTILINE changes only what the anchors match,
not \s -- so the pattern's whitespace may cross line boundaries. -/
def isRegexSpace (c : Char) : Bool :=
  c = ' ' || c = '\t' || c = '\n' || c = '\r' || c = '\x0c' || c = '\x0b'

/-- Attempt the pattern def\s+([a-zA-Z_][a-zA-Z0-9_]*)\s*\( at the head
of cs (the caller guarantees the head is a ^ position); on success return
the captured name and the input after the match.  Greedy maximal munch is
exact for this pattern: the whitespace class, the identifier classes and
the literal parenthesis are pairwise disjoint, so whenever a greedy piece
overshoots, every shorter choice leaves a character the next piece cannot
accept, and backtracking can never rescue a failed maximal attempt. -/
def matchDefAt (cs : List Char) : Option (String × List Char) :=
  match dropLead "def".data cs with
  | none => none
  | some r1 =>
    let ws := r1.takeWhile isRegexSpace
    let r2 := r1.dropWhile isRegexSpace
    if ws.isEmpty then none
    else
      let ident := r2.takeWhile isIdentChar
      let r3 := r2.dropWhile isIdentChar
      match ident with
      | [] => none
      | c0 :: _ =>
        if isIdentStart c0 then
          match r3.dropWhile isRegexSpace with
          | '(' :: rest => some (⟨ident⟩, rest)
          | _ => none
        else none

/-- The left-to-right non-overlapping scan of re.findall with
re.MULTILINE: a match may start only at a ^ position (the start of the
input or just after a newline); a failed position advances one character;
a successful match resumes right after its end, which is a parenthesis,
so never itself a ^ position.  The fuel is the remaining input length
plus one: every iteration consumes at least one character, so the scan
always completes within the bound. -/
def findDefNamesGo : Nat → Bool → List Char → List String
  | 0, _, _ => []
  | _+1, _, [] => []
  | fuel+1, atStart, c :: cs =>
    if atStart then
      match matchDefAt (c :: cs) with
      | some (name, rest) => name :: findDefNamesGo fuel false rest
      | none => findDefNamesGo fuel (c == '\n') cs
    else findDefNamesGo fuel (c == '\n') cs

/-- re.findall of the anchored def pattern over the whole snippet, in
scan order. -/
def findDefNames (code : String) : List String :=
  findDefNamesGo (code.data.length + 1) true code.data

/-- Separator join (Python str.join). -/
def joinSep (sep : String) : List String → String
  | [] => ""
  | [x] => x
  | x :: y :: rest => x ++ sep ++ joinSep sep (y :: rest)

/-- Python repr of a list of strings, as an f-string renders `matches`. -/
def pyStrListRepr (names : List String) : String :=
  "[" ++ joinSep ", " (names.map (fun n => "\x27" ++ n ++ "\x27")) ++ "]"

/-- EmbeddedPythonExecutor._extract_func_name: the snippet must define
exactly one top-level function; otherwise a descriptive ValueError. -/
def extract_func_name (code : String) : Except String String :=
  match findDefNames code with
  | [] => .error "代码中未找到函数定义"
  | [n] => .ok n
  | ns => .error ("代码中定义了多个函数: " ++ pyStrListRepr ns ++ "，只允许一个")

/-- The generated driver script text (the f-string of
_build_execution_script, reproduced with its placeholders as arguments;
blank template lines are reproduced without trailing spaces). -/
def driverScriptText (import_lines func_code func_code_escaped args_json
    func_name : String) : String :=
  "# -*- coding: utf-8 -*-\nimport sys\nimport json\nimport traceback\n"
  ++ "import site\nimport ast\n\n"
  ++ "# 确保 site-packages 在路径中\n"
  ++ "for p in site.getsitepackages():\n"
  ++ "    if p not in sys.path:\n"
  ++ "        sys.path.insert(0, p)\n\n"
  ++ "# 预导入模块\n" ++ import_lines ++ "\n\n"
  ++ "# 用户函数代码\n" ++ func_code ++ "\n\n"
  ++ "# 执行函数并输出结果\n"
  ++ "if __name__ == \"__main__\":\n"
  ++ "    try:\n"
  ++ "        # 先检查语法错误\n"
  ++ "        func_code_str = " ++ func_code_escaped ++ "\n"
  ++ "        try:\n"
  ++ "            ast.parse(func_code_str)\n"
  ++ "        except SyntaxError as se:\n"
  ++ "            error_output = \x7b\n"
  ++ "                \"success\": False,\n"
  ++ "                \"error\": \"语法错误: \" + str(se.msg) + \" (行 \" + str(se.lineno) + \")\",\n"
  ++ "                \"traceback\": \"SyntaxError: \" + str(se.msg) + \"\\n  文件: <节点代码>, 行 \" + str(se.lineno)\n"
  ++ "            \x7d\n"
  ++ "            print(\"__ERROR_START__\", file=sys.stderr)\n"
  ++ "            print(json.dumps(error_output, ensure_ascii=False), file=sys.stderr)\n"
  ++ "            print(\"__ERROR_END__\", file=sys.stderr)\n"
  ++ "            sys.exit(1)\n\n"
  ++ "        args = json.loads(\x27" ++ args_json ++ "\x27)\n"
  ++ "        result = " ++ func_name ++ "(**args)\n\n"
  ++ "        # 序列化结果\n"
  ++ "        output = \x7b\n"
  ++ "            \"success\": True,\n"
  ++ "            \"result\": result,\n"
  ++ "            \"type\": type(result).__name__\n"
  ++ "        \x7d\n"
  ++ "        print(\"__RESULT_START__\")\n"
  ++ "        print(json.dumps(output, default=str, ensure_ascii=False))\n"
  ++ "        print(\"__RESULT_END__\")\n\n"
  ++ "    except Exception as e:\n"
  ++ "        error_output = \x7b\n"
  ++ "            \"success\": False,\n"
  ++ "            \"error\": str(e),\n"
  ++ "            \"traceback\": traceback.format_exc()\n"
  ++ "        \x7d\n"
  ++ "        # 输出到 stderr 以便正确捕获\n"
  ++ "        print(\"__ERROR_START__\", file=sys.stderr)\n"
  ++ "        print(json.dumps(error_output, ensure_ascii=False), file=sys.stderr)\n"
  ++ "        print(\"__ERROR_END__\", file=sys.stderr)\n"
  ++ "        sys.exit(1)\n"

/-- EmbeddedPythonExecutor._build_execution_script: assemble the driver
script.  Name extraction happens here, before any file or process exists;
its ValueError propagates as the error case. -/
def build_execution_script (func_code : String) (args : List (String × Json))
    (imports : List String) : Except String String :=
  let import_lines := String.join (imports.map (fun i => "import " ++ i ++ "\n"))
  match extract_func_name func_code with
  | .error e => .error e
  | .ok func_name =>
    let args_json := jsonDumps (Json.obj args)
    let func_code_escaped := jsonDumps (Json.str func_code)
    .ok (driverScriptText import_lines func_code func_code_escaped args_json
      func_name)

/-- The success framing markers of the wire protocol. -/
def RESULT_START : String := "__RESULT_START__"

/-- End marker of the success framing. -/
def RESULT_END : String := "__RESULT_END__"

/-- The failure framing markers of the wire protocol. -/
def ERROR_START : String := "__ERROR_START__"

/-- End marker of the failure framing. -/
def ERROR_END : String := "__ERROR_END__"

/-- The Python exceptions execute_node and its helpers can surface.
ValueError is the extraction failure (it propagates out of execute_node
uncaught there); RuntimeError and TimeoutError are raised explicitly;
AttributeError models `payload.get(...)` on a decoded non-dict payload. -/
inductive ExecErr where
  | valueError (msg : String) : ExecErr
  | runtimeError (msg : String) : ExecErr
  | timeoutError (msg : String) : ExecErr
  | attributeError : ExecErr
deriving DecidableEq, Repr

/-- The text of the JSONDecodeError the strict parse may raise; its exact
wording is abstracted (no claim reads it). -/
def jsonErrorDetail : String := "Expecting value"

/-- The payload decision shared by both decoding paths: the truthiness of
data.get("success") chooses between data.get("result") and
RuntimeError(data.get("error", default)). -/
def outcomeOfPayload (kvs : List (String × Json)) : Except ExecErr Json :=
  if pyTruthy ((jGet kvs "success").getD .null) then
    .ok ((jGet kvs "result").getD .null)
  else
    .error (.runtimeError (pyStrOf ((jGet kvs "error").getD (.str "未知错误"))))

/-- Decide a decoded success payload exactly as the marker branch of
_parse_result does; `payload.get(...)` on a decoded non-dict raises
AttributeError. -/
def decidePayload (d : Json) : Except ExecErr Json :=
  match d with
  | .obj kvs => outcomeOfPayload kvs
  | _ => .error .attributeError

/-- The legacy fallback scan of _parse_result: walk the stripped lines in
reverse; the first line that is nonempty, decodes as JSON and is a dict
containing "success" decides the outcome; other lines are skipped. -/
def scanFallbackLines : List String → Option (Except ExecErr Json)
  | [] => none
  | l :: rest =>
    let l' := pyStrip l
    if l'.isEmpty then scanFallbackLines rest
    else
      match jsonLoads l' with
      | some (.obj kvs) =>
        if jHasKey kvs "success" then some (outcomeOfPayload kvs)
        else scanFallbackLines rest
      | _ => scanFallbackLines rest

/-- EmbeddedPythonExecutor._parse_result: locate the success markers; if
both are found, strictly parse the substring between them and let the
payload decide; otherwise fall back to the reverse line scan, and failing
that return the raw stripped stream as an opaque (string) result. -/
def parse_result (stdout : String) : Except ExecErr Json :=
  let cs := stdout.data
  match findSubstr RESULT_START.data cs, findSubstr RESULT_END.data cs with
  | some si, some ei =>
    let json_str : String :=
      ⟨pyStripChars ((cs.drop (si + RESULT_START.length)).take
        (ei - (si + RESULT_START.length)))⟩
    (match jsonLoads json_str with
     | none => .error (.runtimeError ("无法解析执行结果: " ++ jsonErrorDetail))
     | some d => decidePayload d)
  | _, _ =>
    match scanFallbackLines (splitNl (pyStrip stdout)).reverse with
    | some r => r
    | none => .ok (.str (pyStrip stdout))

/-- EmbeddedPythonExecutor._parse_error: prefer the traceback (then the
error string) of a well-formed marker-framed error payload; otherwise
extract a Python traceback block or a bare Error:/Exception: line from the
raw output; otherwise the stripped output itself, with a fixed fallback
message when even that is empty. -/
def parse_error (output : String) : String :=
  let cs := output.data
  let viaMarkers : Option String :=
    match findSubstr ERROR_START.data cs, findSubstr ERROR_END.data cs with
    | some si, some ei =>
      let json_str : String :=
        ⟨pyStripChars ((cs.drop (si + ERROR_START.length)).take
          (ei - (si + ERROR_START.length)))⟩
      (match jsonLoads json_str with
       | some (.obj kvs) =>
         let error_msg := pyStrOf ((jGet kvs "error").getD (.str "未知错误"))
         let tb := (jGet kvs "traceback").getD (.str "")
         if pyTruthy tb then some (pyStrOf tb) else some error_msg
       | _ => none)
    | _, _ => none
  match viaMarkers with
  | some m => m
  | none =>
    let lines := splitNl (pyStrip output)
    let tb := lines.dropWhile
      (fun l => !(containsSubstr l "Traceback (most recent call last)"))
    if !tb.isEmpty then joinSep "\n" tb
    else
      match lines.find?
          (fun l => containsSubstr l "Error:" || containsSubstr l "Exception:") with
      | some l => l
      | none =>
        if (pyStrip output).isEmpty then "执行失败（无错误信息）"
        else pyStrip output

/-- Outcome of the child OS process: captured exit data, or a timeout of
the subprocess wait. -/
structure ProcResult where
  returncode : Int
  stdout : String
  stderr : String

/-- The process boundary of execute_node.  Everything that happens between
writing the script and collecting the outcome is outside the controlling
process and enters the model through this parameter. -/
inductive ProcBehavior where
  | completes (r : ProcResult) : ProcBehavior
  | timesOut : ProcBehavior

/-- EmbeddedPythonExecutor.execute_node: build the driver script (a
ValueError from name extraction escapes before the temporary file is
written or any process is spawned -- in the model, before the process
parameter is consulted); run the child; a timeout raises the distinct
TimeoutError naming the limit; a nonzero exit raises RuntimeError with the
decoded error message; a zero exit decodes stdout via the marker
protocol. -/
def execute_node (func_code : String) (args : List (String × Json))
    (imports : List String) (timeout : Nat) (proc : ProcBehavior) :
    Except ExecErr Json :=
  match build_execution_script func_code args imports with
  | .error m => .error (.valueError m)
  | .ok _script =>
    match proc with
    | .timesOut =>
      .error (.timeoutError ("节点执行超时（" ++ toString timeout ++ "秒）"))
    | .completes r =>
      if r.returncode ≠ 0 then
        .error (.runtimeError (parse_error (r.stdout ++ "\n" ++ r.stderr)))
      else
        parse_result r.stdout

/-! ## The generated driver script's behaviour

The child interpreter is not part of this repository's code; the driver
script it runs is.  `childRun` models executing the generated script whose
embedded argument literal is `args_json` and whose single user function
denotes the pure, JSON-valued map `f`: the script evaluates
json.loads('args_json'), calls the function with the decoded dict unpacked
as keywords, and prints the marker-framed success payload
(success/result/type) on stdout, or the marker-framed error payload on
stderr with exit code 1. -/

/-- Evaluation of the Python single-quoted literal whose spliced verbatim
content is s: if s contains a quote, a backslash or a newline the script
text is no longer that literal (with a quote the script does not even
compile); otherwise the literal evaluates to s itself. -/
def evalPySingleQuoted (s : String) : Option String :=
  if s.data.all (fun c => c ≠ '\x27' && c ≠ '\\' && c ≠ '\n' && c ≠ '\r') then
    some s
  else none

/-- type(result).__name__ on the JSON-representable results. -/
def pyTypeName : Json → String
  | .null => "NoneType"
  | .bool _ => "bool"
  | .num _ => "int"
  | .str _ => "str"
  | .arr _ => "list"
  | .obj _ => "dict"

/-- The success payload the driver script serializes. -/
def successPayload (r : Json) : Json :=
  .obj [("success", .bool true), ("result", r), ("type", .str (pyTypeName r))]

/-- The stderr CPython produces when the script file itself fails to
compile (the unescaped-quote case); its exact File/caret lines are
abstracted, the SyntaxError line is what parse_error keys on. -/
def syntaxErrorStderr : String :=
  "  File \"<script>\", line 37\n    args = json.loads(...)\nSyntaxError: invalid syntax"

/-- Run the driver script: the argument literal either breaks the script
(unescaped quote: compile failure, exit 1), decodes to a non-dict (the
guarded body raises, error framing on stderr, exit 1), or decodes to the
kwargs dict, in which case the function's value is framed on stdout. -/
def childRun (args_json : String) (f : List (String × Json) → Json) :
    ProcBehavior :=
  match evalPySingleQuoted args_json with
  | none => .completes ⟨1, "", syntaxErrorStderr⟩
  | some lit =>
    match jsonLoads lit with
    | some (.obj kvs) =>
      .completes ⟨0,
        RESULT_START ++ "\n" ++ jsonDumps (successPayload (f kvs)) ++ "\n"
          ++ RESULT_END ++ "\n", ""⟩
    | _ =>
      .completes ⟨1, "",
        ERROR_START ++ "\n"
          ++ jsonDumps (.obj [("success", .bool false),
               ("error", .str "参数解码失败"),
               ("traceback",
                 .str "Traceback (most recent call last):\n参数解码失败")])
          ++ "\n" ++ ERROR_END ++ "\n"⟩

/-- execute_node run against the modelled driver script: the child's
embedded argument literal is exactly the args_json the script builder
splices in. -/
def execute_node_driver (func_code : String) (args : List (String × Json))
    (imports : List String) (timeout : Nat)
    (f : List (String × Json) → Json) : Except ExecErr Json :=
  execute_node func_code args imports timeout
    (childRun (jsonDumps (Json.obj args)) f)

/-! # Sandbox safety checker (src/utils/sandbox.py)

The checker runs on parse trees: ast.parse is the model boundary, and the
AST fragment below covers the node kinds the checker dispatches on
(imports, calls, expression statements, function definitions) plus generic
containers for everything else, which ast.NodeVisitor.generic_visit simply
recurses through. -/

/-- Python expressions, as far as the checker inspects them. -/
inductive PyExpr where
  | nameE (id : String) : PyExpr
  | constE : PyExpr
  | call (func : PyExpr) (args : List PyExpr) : PyExpr
  | attr (val : PyExpr) (attrName : String) : PyExpr
  | binop (l r : PyExpr) : PyExpr
deriving Repr

/-- Python statements, as far as the checker inspects them.  `other` is
any compound statement with a statement body (if/for/while/with/class)
that the visitor only recurses through. -/
inductive PyStmt where
  | functionDef (nm : String) (body : List PyStmt) : PyStmt
  | importS (names : List String) : PyStmt
  | importFrom (mod : Option String) (names : List String) : PyStmt
  | exprS (e : PyExpr) : PyStmt
  | ret (e : Option PyExpr) : PyStmt
  | assign (e : PyExpr) : PyStmt
  | other (body : List PyStmt) : PyStmt
deriving Repr

mutual

/-- ast.walk count of FunctionDef nodes in one statement: every depth
counts, including functions nested inside another function's body. -/
def countFuncDefsStmt : PyStmt → Nat
  | .functionDef _ body => 1 + countFuncDefsList body
  | .other body => countFuncDefsList body
  | _ => 0

/-- ast.walk count of FunctionDef nodes in a statement list. -/
def countFuncDefsList : List PyStmt → Nat
  | [] => 0
  | s :: rest => countFuncDefsStmt s + countFuncDefsList rest

end

/-- SandboxChecker.FORBIDDEN_MODULES. -/
def FORBIDDEN_MODULES : List String :=
  ["os", "sys", "subprocess", "socket", "ctypes", "mmap",
   "urllib", "http", "ftplib", "smtplib", "telnetlib",
   "pickle", "cPickle", "marshal", "shelve",
   "multiprocessing", "threading", "_thread",
   "imp", "importlib", "runpy", "modulefinder",
   "site", "builtins", "__builtin__"]

/-- SandboxChecker.WARNING_MODULES. -/
def WARNING_MODULES : List String :=
  ["requests", "urllib3", "httpx", "pymongo", "psycopg2", "mysql",
   "paramiko", "fabric", "pyautogui"]

/-- SandboxChecker.FORBIDDEN_BUILTINS. -/
def FORBIDDEN_BUILTINS : List String :=
  ["eval", "exec", "compile", "__import__",
   "open", "input", "raw_input",
   "exit", "quit",
   "help", "copyright", "credits", "license"]

/-- SandboxChecker.ALLOWED_MODULES. -/
def ALLOWED_MODULES : List String :=
  ["abc", "array", "bisect", "collections", "copy", "dataclasses",
   "enum", "functools", "heapq", "itertools", "json", "math",
   "numbers", "operator", "pprint", "random", "re", "statistics",
   "string", "time", "datetime", "decimal", "fractions", "typing",
   "uuid", "hashlib", "base64", "binascii", "struct",
   "csv", "html", "xml", "xml.etree.ElementTree",
   "difflib", "graphlib", "zoneinfo"]

/-- The accumulating visitor state (self.errors / warnings / imports). -/
structure CheckState where
  errors : List String
  warnings : List String
  imports : List String
deriving DecidableEq, Repr

/-- alias.name.split(".")[0]. -/
def topLevelMod (dotted : String) : String :=
  ⟨(splitOnChar (Char.ofNat 46) dotted.data).headD []⟩

/-- SandboxChecker._check_module: a forbidden module records a hard error
and returns (without recording the import); otherwise a caution-list
warning and/or a not-pre-approved warning may accrue and the import is
recorded. -/
def checkModule (allowed : List String) (st : CheckState)
    (module_name : String) : CheckState :=
  if FORBIDDEN_MODULES.contains module_name then
    { st with errors := st.errors ++ ["禁止导入危险模块: " ++ module_name] }
  else
    let st1 :=
      if WARNING_MODULES.contains module_name then
        { st with warnings := st.warnings
          ++ ["导入的模块 \x27" ++ module_name ++ "\x27 可能包含危险操作，请谨慎使用"] }
      else st
    let st2 :=
      if !(allowed.contains module_name) then
        { st1 with warnings := st1.warnings
          ++ ["导入的模块 \x27" ++ module_name ++ "\x27 未在允许列表中，可能需要管理员审核"] }
      else st1
    { st2 with imports := st2.imports ++ [module_name] }

mutual

/-- Visitor dispatch on expressions: visit_Call flags forbidden builtin
calls (and warns on open()), then generic_visit recurses into the callee
and the arguments; all other expression kinds only recurse. -/
def visitExpr (st : CheckState) : PyExpr → CheckState
  | .nameE _ => st
  | .constE => st
  | .call f args =>
    let st1 :=
      match f with
      | .nameE id =>
        let sta :=
          if FORBIDDEN_BUILTINS.contains id then
            { st with errors := st.errors ++ ["禁止调用危险函数: " ++ id ++ "()"] }
          else st
        if id = "open" then
          { sta with warnings := sta.warnings
            ++ ["代码中使用了 open() 函数，可能涉及文件系统操作"] }
        else sta
      | _ => st
    visitExprList (visitExpr st1 f) args
  | .attr v _ => visitExpr st v
  | .binop l r => visitExpr (visitExpr st l) r

/-- generic_visit over a list of child expressions. -/
def visitExprList (st : CheckState) : List PyExpr → CheckState
  | [] => st
  | e :: rest => visitExprList (visitExpr st e) rest

end

mutual

/-- Visitor dispatch on statements: visit_Import / visit_ImportFrom check
each target's top-level module, visit_Expr additionally flags a bare
eval()/exec() call before generic_visit reaches the call itself, and every
other statement only recurses into its children. -/
def visitStmt (allowed : List String) (st : CheckState) : PyStmt → CheckState
  | .importS names =>
    names.foldl (fun s nm => checkModule allowed s (topLevelMod nm)) st
  | .importFrom mod names =>
    (match mod with
     | some m =>
       let st1 := checkModule allowed st (topLevelMod m)
       { st1 with imports := st1.imports ++ names.map (fun a => m ++ "." ++ a) }
     | none => st)
  | .exprS e =>
    let st1 :=
      match e with
      | .call (.nameE id) _ =>
        if id = "eval" || id = "exec" then
          { st with errors := st.errors ++ ["禁止直接调用 " ++ id ++ "()"] }
        else st
      | _ => st
    visitExpr st1 e
  | .functionDef _ body => visitStmtList allowed st body
  | .ret e =>
    (match e with
     | some ex => visitExpr st ex
     | none => st)
  | .assign e => visitExpr st e
  | .other body => visitStmtList allowed st body

/-- generic_visit over a statement list (a Module body or a compound
statement's body). -/
def visitStmtList (allowed : List String) (st : CheckState) :
    List PyStmt → CheckState
  | [] => st
  | s :: rest => visitStmtList allowed (visitStmt allowed st s) rest

end

/-- SecurityCheckResult of src/utils/sandbox.py. -/
structure SecurityCheckResult where
  is_safe : Bool
  errors : List String
  warnings : List String
  imports : List String
deriving DecidableEq, Repr

/-- SandboxChecker.check_code on a parsed tree: count FunctionDef nodes by
a full tree walk (both the too-many and the zero case are hard errors),
then run the visitor; is_safe is defined as the emptiness of the error
list. -/
def check_code (tree : List PyStmt) (allowed_extra : List String) :
    SecurityCheckResult :=
  let fnCount := countFuncDefsList tree
  let e0 :=
    (if fnCount > 1 then
      ["代码中包含 " ++ toString fnCount ++ " 个函数，只允许定义一个函数"]
     else [])
    ++ (if fnCount = 0 then ["代码中未找到函数定义"] else [])
  let allowed := ALLOWED_MODULES ++ allowed_extra
  let st := visitStmtList allowed ⟨e0, [], []⟩ tree
  ⟨st.errors.isEmpty, st.errors, st.warnings, st.imports⟩

mutual

/-- Spec-side predicate: the snippet contains, at any depth, an import
statement whose target's top-level module name is m. -/
def stmtImportsMod (m : String) : PyStmt → Bool
  | .importS names => names.any (fun nm => topLevelMod nm == m)
  | .importFrom (some md) _ => topLevelMod md == m
  | .importFrom none _ => false
  | .functionDef _ body => stmtsImportMod m body
  | .other body => stmtsImportMod m body
  | _ => false

/-- Spec-side predicate over a statement list. -/
def stmtsImportMod (m : String) : List PyStmt → Bool
  | [] => false
  | s :: rest => stmtImportsMod m s || stmtsImportMod m rest

end

/-- Top-level function-definition count of a module (what the spec's
"top-level function definition" denotes). -/
def topLevelFuncCount (tree : List PyStmt) : Nat :=
  tree.countP (fun s =>
    match s with
    | .functionDef _ _ => true
    | _ => false)

/-! # Dependency scheduler (src/core/engine/graph_executor.py)

A node is an opaque id; a connection (ConnectionItem with both ends set)
goes from an output port of its start node to a named input port of its
end node.  `inputPorts` lists a node's input-port names in port order, and
an input port (n, p) owns the connections whose end is (n, p), in
connection-list order -- this is the derived view of
`port.connections`.  A node's outgoing connections are iterated as the
connection list restricted to that start node; the source iterates them
grouped by output port, which can permute the enqueue order but not the
membership facts the claims state.  The in_degree dict becomes a total
function out of node ids.  The while-loop runs one iteration per dequeued
node; since a node's in-degree strictly decreases once it is at or below
zero, a node is enqueued at most once and `g.nodes.length` iterations
always suffice, which is the bound the model uses. -/

/-- A finished connection: (start node, start port) to (end node, end
port name). -/
structure Edge where
  src : Nat
  srcPort : String
  dst : Nat
  dstPort : String
deriving DecidableEq, Repr

/-- The graph the scheduler receives: node ids, their input-port name
lists, their param_values override maps, and the connection list. -/
structure Graph where
  nodes : List Nat
  inputPorts : Nat → List String
  paramValues : Nat → String → Option Json
  edges : List Edge

/-- The connections of input port (n, p), in connection-list order
(the derived `port.connections` of an input port). -/
def inConns (g : Graph) (n : Nat) (p : String) : List Edge :=
  g.edges.filter (fun e => e.dst == n && e.dstPort == p)

/-- The initial in-degree of topological_sort: the number of the node's
input ports that have at least one connection (NOT the number of
connections). -/
def initInDegree (g : Graph) (n : Nat) : Int :=
  (((g.inputPorts n).filter (fun p => !(inConns g n p).isEmpty)).length : Int)

/-- A dequeued node's outgoing connections (`port.connections` over its
output ports; every modelled connection has its end port set). -/
def outEdges (g : Graph) (n : Nat) : List Edge :=
  g.edges.filter (fun e => e.src == n)

/-- One inner step of the while-loop: decrement the connection target's
in-degree and enqueue it when the count reaches zero. -/
def processConn (s : (Nat → Int) × List Nat) (e : Edge) :
    (Nat → Int) × List Nat :=
  let d := s.1 e.dst - 1
  let deg' : Nat → Int := fun v => if v = e.dst then d else s.1 v
  (deg', if d = 0 then s.2 ++ [e.dst] else s.2)

/-- Process all outgoing connections of a dequeued node. -/
def processOut (es : List Edge) (deg : Nat → Int) (queue : List Nat) :
    (Nat → Int) × List Nat :=
  es.foldl processConn (deg, queue)

/-- The while-loop of topological_sort, fueled by the iteration bound. -/
def kahnLoop (g : Graph) : Nat → (Nat → Int) → List Nat → List Nat
  | 0, _, _ => []
  | _+1, _, [] => []
  | fuel+1, deg, n :: q =>
    let s := processOut (outEdges g n) deg q
    n :: kahnLoop g fuel s.1 s.2

/-- topological_sort of src/core/engine/graph_executor.py: per-port
in-degree seeding, FIFO queue of zero-degree nodes, per-connection
decrements. -/
def topological_sort (g : Graph) : List Nat :=
  let deg0 := initInDegree g
  kahnLoop g g.nodes.length deg0 (g.nodes.filter (fun n => deg0 n == 0))

/-- Node status (SimpleNodeItem.STATUS_*; the error status carries the
message passed to set_status). -/
inductive NodeStatus where
  | idle : NodeStatus
  | running : NodeStatus
  | success : NodeStatus
  | error (msg : String) : NodeStatus
deriving DecidableEq, Repr

/-- The mutable per-node fields execute_graph touches. -/
structure RunState where
  status : Nat → NodeStatus
  result : Nat → Option Json

/-- Pointwise update of a node-indexed map. -/
def updAt {α : Type} (f : Nat → α) (n : Nat) (v : α) : Nat → α :=
  fun m => if m = n then v else f m

/-- The reset loop at the head of execute_graph: every node's result is
cleared and its status reset to idle. -/
def resetAll (g : Graph) (st : RunState) : RunState :=
  g.nodes.foldl
    (fun s n => ⟨updAt s.status n .idle, updAt s.result n none⟩) st

/-- The kwargs gathering loop: a connected input port takes its first
connection's source-node result; an unconnected one takes the
param_values override if present, else None. -/
def gatherKwargs (g : Graph) (st : RunState) (n : Nat) :
    List (String × Option Json) :=
  (g.inputPorts n).map (fun p =>
    match (inConns g n p).head? with
    | some e => (p, st.result e.src)
    | none =>
      match g.paramValues n p with
      | some v => (p, some v)
      | none => (p, none))

/-- Apply one node's outcome: success stores the result and marks
Success; a failure marks Error with the exception message and leaves the
result field untouched. -/
def applyOutcome (st : RunState) (n : Nat) :
    Except String Json → RunState
  | .ok v => ⟨updAt st.status n .success, updAt st.result n (some v)⟩
  | .error m => ⟨updAt st.status n (.error m), st.result⟩

/-- The per-node loop of execute_graph over the sorted order.  `ex` is
the per-node invocation (source resolution, import extraction and
executor.execute_node, all inside the per-node try); the returned trace
records each invocation's outcome in execution order. -/
def execNodes (g : Graph)
    (ex : Nat → List (String × Option Json) → Except String Json) :
    List Nat → RunState → RunState × List (Nat × Except String Json)
  | [], st => (st, [])
  | n :: rest, st =>
    let st1 : RunState := ⟨updAt st.status n .running, st.result⟩
    let o := ex n (gatherKwargs g st1 n)
    let st2 := applyOutcome st1 n o
    let r := execNodes g ex rest st2
    (r.1, (n, o) :: r.2)

/-- execute_graph: an empty node list returns False immediately;
otherwise reset every node, sort, execute each sorted node in order with
continue-on-error, and return the conjunction of the per-node outcomes
together with the final node states. -/
def execute_graph (g : Graph)
    (ex : Nat → List (String × Option Json) → Except String Json)
    (st0 : RunState) : Bool × RunState :=
  if g.nodes.isEmpty then (false, st0)
  else
    let r := execNodes g ex (topological_sort g) (resetAll g st0)
    (r.2.all (fun p => p.2.toBool), r.1)

/-- The invocation trace of a run (which nodes were executed, with which
outcomes, in order). -/
def runTrace (g : Graph)
    (ex : Nat → List (String × Option Json) → Except String Json)
    (st0 : RunState) : List (Nat × Except String Json) :=
  (execNodes g ex (topological_sort g) (resetAll g st0)).2

/-! # Theorems -/

set_option maxRecDepth 40000

instance decEqExceptInst {ε α : Type} [DecidableEq ε] [DecidableEq α] :
    DecidableEq (Except ε α) := fun a b =>
  match a, b with
  | .ok x, .ok y =>
    if h : x = y then .isTrue (by rw [h])
    else .isFalse (by intro he; cases he; exact h rfl)
  | .error x, .error y =>
    if h : x = y then .isTrue (by rw [h])
    else .isFalse (by intro he; cases he; exact h rfl)
  | .ok _, .error _ => .isFalse (by intro he; cases he)
  | .error _, .ok _ => .isFalse (by intro he; cases he)

/-- needle occurs somewhere inside hay. -/
def HasSubstr (hay needle : String) : Prop :=
  ∃ a b, hay = a ++ needle ++ b

theorem hasSubstr_appendL {h n : String} (p : String) (hs : HasSubstr h n) :
    HasSubstr (p ++ h) n := by
  obtain ⟨a, b, rfl⟩ := hs
  exact ⟨p ++ a, b, by simp [String.append_assoc]⟩

theorem hasSubstr_appendR {h n : String} (s : String) (hs : HasSubstr h n) :
    HasSubstr (h ++ s) n := by
  obtain ⟨a, b, rfl⟩ := hs
  exact ⟨a, b ++ s, by simp [String.append_assoc]⟩

theorem hasSubstr_trans {h q n : String} (h1 : HasSubstr h q)
    (h2 : HasSubstr q n) : HasSubstr h n := by
  obtain ⟨a, b, rfl⟩ := h1
  obtain ⟨c, d, rfl⟩ := h2
  exact ⟨a ++ c, d ++ b, by simp [String.append_assoc]⟩

theorem hasSubstr_refl (n : String) : HasSubstr n n :=
  ⟨"", "", by simp⟩

theorem joinSep_hasSubstr (sep : String) :
    ∀ (l : List String) (x : String), x ∈ l → HasSubstr (joinSep sep l) x := by
  intro l
  induction l with
  | nil => intro x hx; cases hx
  | cons a t ih =>
    intro x hx
    match t, hx with
    | [], hx =>
      cases hx with
      | head => exact hasSubstr_refl a
      | tail _ hmem => cases hmem
    | b :: r, hx =>
      cases hx with
      | head =>
        show HasSubstr (a ++ sep ++ joinSep sep (b :: r)) a
        exact hasSubstr_appendR _ (hasSubstr_appendR _ (hasSubstr_refl a))
      | tail _ hmem =>
        show HasSubstr (a ++ sep ++ joinSep sep (b :: r)) x
        exact hasSubstr_appendL _ (ih x hmem)

theorem pyStrListRepr_hasSubstr {names : List String} {nm : String}
    (h : nm ∈ names) : HasSubstr (pyStrListRepr names) nm := by
  have h1 : HasSubstr (joinSep ", " (names.map (fun n => "\x27" ++ n ++ "\x27")))
      ("\x27" ++ nm ++ "\x27") :=
    joinSep_hasSubstr _ _ _ (List.mem_map_of_mem _ h)
  have h2 : HasSubstr ("\x27" ++ nm ++ "\x27") nm := ⟨"\x27", "\x27", rfl⟩
  exact hasSubstr_appendR _ (hasSubstr_appendL _ (hasSubstr_trans h1 h2))

/-- C3: for every snippet whose structural scan finds zero top-level
function definitions or more than one, execute_node fails with the
descriptive ValueError raised while assembling the driver script -- before
the temporary script file is written and independently of whatever the
child process would do (the process parameter is never consulted, so no
process is spawned) -- and in the more-than-one case the message lists the
names of all the functions found. -/
theorem execute_node_bad_function_count (code : String)
    (args : List (String × Json)) (imports : List String) (timeout : Nat)
    (h : findDefNames code = [] ∨ 1 < (findDefNames code).length) :
    ∃ msg,
      (∀ proc, execute_node code args imports timeout proc
        = .error (.valueError msg))
      ∧ (findDefNames code = [] → msg = "代码中未找到函数定义")
      ∧ (∀ nm ∈ findDefNames code, HasSubstr msg nm) := by
  match hf : findDefNames code with
  | [] =>
    refine ⟨"代码中未找到函数定义", fun proc => ?_, fun _ => rfl, ?_⟩
    · simp only [execute_node, build_execution_script, extract_func_name, hf]
    · intro nm hmem; cases hmem
  | [n] =>
    rw [hf] at h
    rcases h with h | h
    · cases h
    · simp at h
  | n1 :: n2 :: ns =>
    refine ⟨"代码中定义了多个函数: " ++ pyStrListRepr (n1 :: n2 :: ns)
      ++ "，只允许一个", fun proc => ?_, fun he => ?_, fun nm hmem => ?_⟩
    · simp only [execute_node, build_execution_script, extract_func_name, hf]
    · cases he
    · exact hasSubstr_appendR _ (hasSubstr_appendL _
        (pyStrListRepr_hasSubstr hmem))

/-- Witness for C3 at a two-function snippet. -/
theorem execute_node_bad_function_count_witness :
    ∃ msg,
      (∀ proc, execute_node "def f(x):\n    return 1\ndef g(y):\n    return 2"
        [] [] 30 proc = .error (.valueError msg))
      ∧ (findDefNames "def f(x):\n    return 1\ndef g(y):\n    return 2" = []
          → msg = "代码中未找到函数定义")
      ∧ (∀ nm ∈ findDefNames "def f(x):\n    return 1\ndef g(y):\n    return 2",
          HasSubstr msg nm) :=
  execute_node_bad_function_count _ [] [] 30 (Or.inr (by decide))

/-- C8: when the child process runs out of the given time budget,
execute_node raises the distinct timeout failure whose message names the
configured limit -- not a generic runtime or structural failure. -/
theorem execute_node_timeout_names_limit (code : String)
    (args : List (String × Json)) (imports : List String) (timeout : Nat)
    (h : ∃ n, extract_func_name code = .ok n) :
    execute_node code args imports timeout .timesOut
      = .error (.timeoutError ("节点执行超时（" ++ toString timeout ++ "秒）"))
    ∧ HasSubstr ("节点执行超时（" ++ toString timeout ++ "秒）")
        (toString timeout)
    ∧ (∀ m, execute_node code args imports timeout .timesOut
        ≠ .error (.runtimeError m))
    ∧ (∀ m, execute_node code args imports timeout .timesOut
        ≠ .error (.valueError m)) := by
  obtain ⟨n, hn⟩ := h
  have hmain : execute_node code args imports timeout .timesOut
      = .error (.timeoutError ("节点执行超时（" ++ toString timeout ++ "秒）")) := by
    simp only [execute_node, build_execution_script, hn]
  refine ⟨hmain, ⟨"节点执行超时（", "秒）", rfl⟩, fun m hm => ?_, fun m hm => ?_⟩
  · rw [hmain] at hm; cases hm
  · rw [hmain] at hm; cases hm

/-- Witness for C8 at a well-formed one-function snippet. -/
theorem execute_node_timeout_names_limit_witness :
    execute_node "def f():\n    return 1" [] [] 30 .timesOut
      = .error (.timeoutError ("节点执行超时（" ++ toString 30 ++ "秒）"))
    ∧ HasSubstr ("节点执行超时（" ++ toString 30 ++ "秒）") (toString 30)
    ∧ (∀ m, execute_node "def f():\n    return 1" [] [] 30 .timesOut
        ≠ .error (.runtimeError m))
    ∧ (∀ m, execute_node "def f():\n    return 1" [] [] 30 .timesOut
        ≠ .error (.valueError m)) :=
  execute_node_timeout_names_limit _ [] [] 30 ⟨"f", by decide⟩

/-- The C7 argument map of shape a maps-to 1, b maps-to [1, 2]. -/
def c7Args : List (String × Json) := [("a", .num 1), ("b", .arr [.num 1, .num 2])]

/-- A snippet whose single function returns its keyword arguments as a
dict, to observe the round-tripped argument structure. -/
def c7Code : String := "def f(a, b):\n    return dict(a=a, b=b)"

/-- C7: encoding the argument map of shape a maps-to 1, b maps-to [1, 2]
into the generated driver script and decoding the driver's success
payload yields the identical structure, and a repeated run with unchanged
inputs yields the same result again. -/
theorem execute_node_roundtrips_argument_map :
    execute_node_driver c7Code c7Args [] 30 (fun kvs => Json.obj kvs)
      = .ok (Json.obj c7Args)
    ∧ execute_node_driver c7Code c7Args [] 30 (fun kvs => Json.obj kvs)
      = execute_node_driver c7Code c7Args [] 30 (fun kvs => Json.obj kvs) :=
  ⟨by decide, rfl⟩

/-- The C10 argument map whose JSON serialization contains a single
quote. -/
def c10Args : List (String × Json) := [("x", .str "it\x27s")]

/-- A snippet whose single function returns its argument x unchanged. -/
def c10Code : String := "def f(x):\n    return x"

/-- C10: serializing the map x maps-to "it's" yields text containing a
single quote; the generated driver script embeds that text inside a
single-quoted string literal without escaping; and the invocation
therefore fails with an error (the script does not even compile) instead
of returning the arguments round-tripped. -/
theorem single_quote_argument_breaks_execution :
    HasSubstr (jsonDumps (Json.obj c10Args)) "\x27"
    ∧ (∃ script, build_execution_script c10Code c10Args [] = .ok script
        ∧ containsSubstr script
            ("json.loads(\x27" ++ jsonDumps (Json.obj c10Args) ++ "\x27)") = true)
    ∧ execute_node_driver c10Code c10Args [] 30
        (fun kvs => (jGet kvs "x").getD .null)
      = .error (.runtimeError "SyntaxError: invalid syntax")
    ∧ (∀ v, execute_node_driver c10Code c10Args [] 30
        (fun kvs => (jGet kvs "x").getD .null) ≠ .ok v) := by
  refine ⟨⟨"\x7b\"x\": \"it", "s\"\x7d", by decide⟩, ⟨_, rfl, by decide⟩,
    by decide, fun v hv => ?_⟩
  have hmain : execute_node_driver c10Code c10Args [] 30
      (fun kvs => (jGet kvs "x").getD .null)
      = .error (.runtimeError "SyntaxError: invalid syntax") := by decide
  rw [hmain] at hv
  cases hv

/-- The C5 failing input: one top-level function with one nested helper
function (as source text: def f with an inner def g). -/
def c5Tree : List PyStmt :=
  [.functionDef "f" [.functionDef "g" [.ret (some .constE)],
    .ret (some .constE)]]

/-- C5 (counter-evidence): the checker counts FunctionDef nodes with a
full tree walk, so a snippet with exactly one top-level function but a
nested inner function still receives the function-count hard error, and
is reported unsafe -- against both the specification and the checker's
own top-level-count comment. -/
theorem nested_function_triggers_count_error :
    topLevelFuncCount c5Tree = 1
    ∧ countFuncDefsList c5Tree = 2
    ∧ "代码中包含 2 个函数，只允许定义一个函数" ∈ (check_code c5Tree []).errors
    ∧ (check_code c5Tree []).is_safe = false := by
  refine ⟨by decide, by decide, ?_, by decide⟩
  have : (check_code c5Tree []).errors
      = ["代码中包含 2 个函数，只允许定义一个函数"] := by decide
  rw [this]
  exact List.mem_singleton.mpr rfl

/-- _check_module only appends to the error list: exactly the forbidden
message when the module is block-listed, nothing otherwise. -/
theorem checkModule_errors (allowed : List String) (st : CheckState)
    (m : String) :
    (checkModule allowed st m).errors
      = st.errors ++ (if FORBIDDEN_MODULES.contains m
          then ["禁止导入危险模块: " ++ m] else []) := by
  unfold checkModule
  by_cases hf : m ∈ FORBIDDEN_MODULES
  · simp [hf]
  · by_cases hw : m ∈ WARNING_MODULES <;> by_cases ha : m ∈ allowed <;>
      simp [hf, hw, ha]

/-- The import-statement fold over checkModule only appends errors. -/
theorem foldCheck_errors_mono (allowed : List String) :
    ∀ (names : List String) (st : CheckState),
    ∃ l, (names.foldl (fun s nm => checkModule allowed s (topLevelMod nm)) st).errors
      = st.errors ++ l := by
  intro names
  induction names with
  | nil => exact fun st => ⟨[], by simp⟩
  | cons a t ih =>
    intro st
    obtain ⟨l, hl⟩ := ih (checkModule allowed st (topLevelMod a))
    refine ⟨(if FORBIDDEN_MODULES.contains (topLevelMod a)
      then ["禁止导入危险模块: " ++ topLevelMod a] else []) ++ l, ?_⟩
    simp only [List.foldl_cons, hl, checkModule_errors, List.append_assoc]

mutual

/-- The expression visitor only appends to the error list. -/
theorem visitExpr_errors_mono : ∀ (e : PyExpr) (st : CheckState),
    ∃ l, (visitExpr st e).errors = st.errors ++ l
  | .nameE _, st => ⟨[], by simp [visitExpr]⟩
  | .constE, st => ⟨[], by simp [visitExpr]⟩
  | .attr v _, st => by
    obtain ⟨l, hl⟩ := visitExpr_errors_mono v st
    exact ⟨l, by simpa [visitExpr] using hl⟩
  | .binop a b, st => by
    obtain ⟨l1, h1⟩ := visitExpr_errors_mono a st
    obtain ⟨l2, h2⟩ := visitExpr_errors_mono b (visitExpr st a)
    exact ⟨l1 ++ l2, by simp [visitExpr, h2, h1, List.append_assoc]⟩
  | .call f args, st => by
    have hst1 : ∃ l0,
        (match f with
         | .nameE id =>
           let sta :=
             if FORBIDDEN_BUILTINS.contains id then
               { st with errors := st.errors ++ ["禁止调用危险函数: " ++ id ++ "()"] }
             else st
           if id = "open" then
             { sta with warnings := sta.warnings
               ++ ["代码中使用了 open() 函数，可能涉及文件系统操作"] }
           else sta
         | _ => st : CheckState).errors = st.errors ++ l0 := by
      match f with
      | .nameE id =>
        by_cases hb : id ∈ FORBIDDEN_BUILTINS
        · refine ⟨["禁止调用危险函数: " ++ id ++ "()"], ?_⟩
          by_cases ho : id = "open"
          · subst ho; simp [hb]
          · simp [hb, ho]
        · refine ⟨[], ?_⟩
          by_cases ho : id = "open"
          · subst ho; simp [hb]
          · simp [hb, ho]
      | .constE => exact ⟨[], by simp⟩
      | .call _ _ => exact ⟨[], by simp⟩
      | .attr _ _ => exact ⟨[], by simp⟩
      | .binop _ _ => exact ⟨[], by simp⟩
    obtain ⟨l0, h0⟩ := hst1
    obtain ⟨l1, h1⟩ := visitExpr_errors_mono f _
    obtain ⟨l2, h2⟩ := visitExprList_errors_mono args _
    refine ⟨l0 ++ l1 ++ l2, ?_⟩
    show (visitExprList (visitExpr _ f) args).errors = _
    rw [h2, h1, h0]
    simp [List.append_assoc]

/-- The expression-list visitor only appends to the error list. -/
theorem visitExprList_errors_mono : ∀ (es : List PyExpr) (st : CheckState),
    ∃ l, (visitExprList st es).errors = st.errors ++ l
  | [], st => ⟨[], by simp [visitExprList]⟩
  | e :: rest, st => by
    obtain ⟨l1, h1⟩ := visitExpr_errors_mono e st
    obtain ⟨l2, h2⟩ := visitExprList_errors_mono rest (visitExpr st e)
    exact ⟨l1 ++ l2, by simp [visitExprList, h2, h1, List.append_assoc]⟩

end

mutual

/-- The statement visitor only appends to the error list. -/
theorem visitStmt_errors_mono (allowed : List String) :
    ∀ (s : PyStmt) (st : CheckState),
    ∃ l, (visitStmt allowed st s).errors = st.errors ++ l
  | .importS names, st => by
    simpa [visitStmt] using foldCheck_errors_mono allowed names st
  | .importFrom mod names, st => by
    match mod with
    | some m =>
      refine ⟨if FORBIDDEN_MODULES.contains (topLevelMod m)
        then ["禁止导入危险模块: " ++ topLevelMod m] else [], ?_⟩
      simp [visitStmt, checkModule_errors]
    | none => exact ⟨[], by simp [visitStmt]⟩
  | .exprS e, st => by
    have hst1 : ∃ l0,
        (match e with
         | .call (.nameE id) _ =>
           if id = "eval" || id = "exec" then
             { st with errors := st.errors ++ ["禁止直接调用 " ++ id ++ "()"] }
           else st
         | _ => st : CheckState).errors = st.errors ++ l0 := by
      match e with
      | .call (.nameE id) args =>
        by_cases hid : (id = "eval" || id = "exec") = true
        · exact ⟨["禁止直接调用 " ++ id ++ "()"], by simp [hid]⟩
        · exact ⟨[], by simp [hid]⟩
      | .nameE _ => exact ⟨[], by simp⟩
      | .constE => exact ⟨[], by simp⟩
      | .call .constE _ => exact ⟨[], by simp⟩
      | .call (.call _ _) _ => exact ⟨[], by simp⟩
      | .call (.attr _ _) _ => exact ⟨[], by simp⟩
      | .call (.binop _ _) _ => exact ⟨[], by simp⟩
      | .attr _ _ => exact ⟨[], by simp⟩
      | .binop _ _ => exact ⟨[], by simp⟩
    obtain ⟨l0, h0⟩ := hst1
    obtain ⟨l1, h1⟩ := visitExpr_errors_mono e _
    refine ⟨l0 ++ l1, ?_⟩
    show (visitExpr _ e).errors = _
    rw [h1, h0]
    simp [List.append_assoc]
  | .functionDef _ body, st => by
    simpa [visitStmt] using visitStmtList_errors_mono allowed body st
  | .ret e, st => by
    match e with
    | some ex => simpa [visitStmt] using visitExpr_errors_mono ex st
    | none => exact ⟨[], by simp [visitStmt]⟩
  | .assign e, st => by
    simpa [visitStmt] using visitExpr_errors_mono e st
  | .other body, st => by
    simpa [visitStmt] using visitStmtList_errors_mono allowed body st

/-- The statement-list visitor only appends to the error list. -/
theorem visitStmtList_errors_mono (allowed : List String) :
    ∀ (ss : List PyStmt) (st : CheckState),
    ∃ l, (visitStmtList allowed st ss).errors = st.errors ++ l
  | [], st => ⟨[], by simp [visitStmtList]⟩
  | s :: rest, st => by
    obtain ⟨l1, h1⟩ := visitStmt_errors_mono allowed s st
    obtain ⟨l2, h2⟩ := visitStmtList_errors_mono allowed rest
      (visitStmt allowed st s)
    exact ⟨l1 ++ l2, by simp [visitStmtList, h2, h1, List.append_assoc]⟩

end

/-- An error already recorded survives the rest of the statement walk. -/
theorem visitStmtList_errors_preserved (allowed : List String)
    (ss : List PyStmt) (st : CheckState) {x : String}
    (h : x ∈ st.errors) : x ∈ (visitStmtList allowed st ss).errors := by
  obtain ⟨l, hl⟩ := visitStmtList_errors_mono allowed ss st
  rw [hl]
  exact List.mem_append_left _ h

/-- A block-listed module makes _check_module record the naming error. -/
theorem checkModule_flags (allowed : List String) (st : CheckState)
    {mn m : String} (heq : mn = m) (hm : m ∈ FORBIDDEN_MODULES) :
    ("禁止导入危险模块: " ++ m) ∈ (checkModule allowed st mn).errors := by
  subst heq
  rw [checkModule_errors]
  simp [hm]

/-- The import fold records the error for any block-listed target. -/
theorem foldCheck_flags (allowed : List String) {m : String}
    (hm : m ∈ FORBIDDEN_MODULES) :
    ∀ (names : List String) (st : CheckState),
    (∃ nm ∈ names, topLevelMod nm = m) →
    ("禁止导入危险模块: " ++ m)
      ∈ (names.foldl (fun s nm => checkModule allowed s (topLevelMod nm)) st).errors := by
  intro names
  induction names with
  | nil => intro st h; obtain ⟨nm, hmem, _⟩ := h; cases hmem
  | cons a t ih =>
    intro st h
    obtain ⟨nm, hmem, hnm⟩ := h
    simp only [List.foldl_cons]
    rcases List.mem_cons.mp hmem with rfl | hmemt
    · obtain ⟨l, hl⟩ := foldCheck_errors_mono allowed t
        (checkModule allowed st (topLevelMod nm))
      rw [hl]
      exact List.mem_append_left _ (checkModule_flags allowed st hnm hm)
    · exact ih _ ⟨nm, hmemt, hnm⟩

mutual

/-- Any import of a block-listed module, at any depth of the statement
tree, puts the naming hard error into the visitor's error list. -/
theorem visitStmt_flags (allowed : List String) {m : String}
    (hm : m ∈ FORBIDDEN_MODULES) :
    ∀ (s : PyStmt) (st : CheckState), stmtImportsMod m s = true →
    ("禁止导入危险模块: " ++ m) ∈ (visitStmt allowed st s).errors
  | .importS names, st, h => by
    simp only [stmtImportsMod, List.any_eq_true, beq_iff_eq] at h
    show ("禁止导入危险模块: " ++ m) ∈ (names.foldl _ st).errors
    exact foldCheck_flags allowed hm names st h
  | .importFrom mod names, st, h => by
    match mod with
    | some md =>
      simp only [stmtImportsMod, beq_iff_eq] at h
      show ("禁止导入危险模块: " ++ m)
        ∈ ({ checkModule allowed st (topLevelMod md) with
            imports := (checkModule allowed st (topLevelMod md)).imports
              ++ names.map (fun a => md ++ "." ++ a) } : CheckState).errors
      exact checkModule_flags allowed st h hm
    | none => simp [stmtImportsMod] at h
  | .exprS e, st, h => by simp [stmtImportsMod] at h
  | .functionDef _ body, st, h => by
    show ("禁止导入危险模块: " ++ m) ∈ (visitStmtList allowed st body).errors
    exact visitStmtList_flags allowed hm body st h
  | .ret e, st, h => by simp [stmtImportsMod] at h
  | .assign e, st, h => by simp [stmtImportsMod] at h
  | .other body, st, h => by
    show ("禁止导入危险模块: " ++ m) ∈ (visitStmtList allowed st body).errors
    exact visitStmtList_flags allowed hm body st h

/-- List version of visitStmt_flags. -/
theorem visitStmtList_flags (allowed : List String) {m : String}
    (hm : m ∈ FORBIDDEN_MODULES) :
    ∀ (ss : List PyStmt) (st : CheckState), stmtsImportMod m ss = true →
    ("禁止导入危险模块: " ++ m) ∈ (visitStmtList allowed st ss).errors
  | [], st, h => by simp [stmtsImportMod] at h
  | s :: rest, st, h => by
    simp only [stmtsImportMod, Bool.or_eq_true] at h
    show ("禁止导入危险模块: " ++ m)
      ∈ (visitStmtList allowed (visitStmt allowed st s) rest).errors
    rcases h with h | h
    · exact visitStmtList_errors_preserved allowed rest _
        (visitStmt_flags allowed hm s st h)
    · exact visitStmtList_flags allowed hm rest _ h

end

/-- C4: check_code reports any import of a block-listed module as a hard
error naming the module, and is_safe is true exactly when the error list
is empty (warnings play no part in is_safe). -/
theorem check_code_blocklist_and_is_safe (tree : List PyStmt)
    (extra : List String) :
    ((check_code tree extra).is_safe = true ↔ (check_code tree extra).errors = [])
    ∧ (∀ m, m ∈ FORBIDDEN_MODULES → stmtsImportMod m tree = true →
        ("禁止导入危险模块: " ++ m) ∈ (check_code tree extra).errors) := by
  constructor
  · show (check_code tree extra).errors.isEmpty = true ↔ _
    exact List.isEmpty_iff
  · intro m hm himp
    show ("禁止导入危险模块: " ++ m) ∈ (visitStmtList _ _ tree).errors
    exact visitStmtList_flags _ hm tree _ himp

/-- Witness for C4 at a snippet importing os. -/
theorem check_code_blocklist_witness :
    ((check_code [.importS ["os"], .functionDef "f" [.ret none]] []).is_safe = true
      ↔ (check_code [.importS ["os"], .functionDef "f" [.ret none]] []).errors = [])
    ∧ ("禁止导入危险模块: os")
      ∈ (check_code [.importS ["os"], .functionDef "f" [.ret none]] []).errors :=
  ⟨(check_code_blocklist_and_is_safe _ []).1,
    (check_code_blocklist_and_is_safe _ []).2 "os" (by decide) (by decide)⟩

/-- Spec-side: both result markers occur in the captured stream. -/
def bothResultMarkers (stdout : String) : Bool :=
  containsSubstr stdout RESULT_START && containsSubstr stdout RESULT_END

/-- Spec-side: the substring strictly between (the first occurrence of)
the start marker and (the first occurrence of) the end marker. -/
def betweenResultMarkers (stdout : String) : String :=
  match findSubstr RESULT_START.data stdout.data,
      findSubstr RESULT_END.data stdout.data with
  | some si, some ei =>
    ⟨(stdout.data.drop (si + RESULT_START.length)).take
      (ei - (si + RESULT_START.length))⟩
  | _, _ => ""

/-- The fallback scan's acceptance predicate: the (stripped) line parses
as JSON and the decoded value is a dict containing the outcome field
"success". -/
def isOutcomeLine (l : String) : Bool :=
  match jsonLoads (pyStrip l) with
  | some (.obj kvs) => jHasKey kvs "success"
  | _ => false

/-- Spec-side: scanning the lines of the (stripped) stream from the end,
the last line that parses as JSON and contains the outcome field. -/
def lastOutcomeLine (stdout : String) : Option String :=
  (splitNl (pyStrip stdout)).reverse.find? isOutcomeLine

/-- Unfolding equation of the fallback scan at a cons cell. -/
theorem scanFallbackLines_cons (l : String) (rest : List String) :
    scanFallbackLines (l :: rest) =
      (if (pyStrip l).isEmpty then scanFallbackLines rest
       else
         match jsonLoads (pyStrip l) with
         | some (.obj kvs) =>
           if jHasKey kvs "success" then some (outcomeOfPayload kvs)
           else scanFallbackLines rest
         | _ => scanFallbackLines rest) := rfl

/-- The loop-with-continue of the fallback scan agrees with "first
acceptable line of the reversed line list": it returns that line's payload
outcome, and returns nothing exactly when no line is acceptable. -/
theorem scanFallbackLines_spec : ∀ ls : List String,
    (∃ l kvs, ls.find? isOutcomeLine = some l
      ∧ jsonLoads (pyStrip l) = some (.obj kvs)
      ∧ jHasKey kvs "success" = true
      ∧ scanFallbackLines ls = some (outcomeOfPayload kvs))
    ∨ (ls.find? isOutcomeLine = none ∧ scanFallbackLines ls = none) := by
  intro ls
  induction ls with
  | nil => exact Or.inr ⟨rfl, rfl⟩
  | cons l rest ih =>
    by_cases hp : isOutcomeLine l = true
    · left
      have hjson : ∃ kvs, jsonLoads (pyStrip l) = some (.obj kvs)
          ∧ jHasKey kvs "success" = true := by
        unfold isOutcomeLine at hp
        match hj : jsonLoads (pyStrip l) with
        | some (.obj kvs) => exact ⟨kvs, rfl, by rw [hj] at hp; exact hp⟩
        | some .null | some (.bool _) | some (.num _) | some (.str _)
        | some (.arr _) | none => rw [hj] at hp; cases hp
      obtain ⟨kvs, hj, hk⟩ := hjson
      have hne : (pyStrip l).isEmpty = false := by
        by_contra hco
        have : pyStrip l = "" := by
          cases hh : (pyStrip l).isEmpty
          · exact absurd hh hco
          · exact (String.isEmpty_iff _).mp hh
        rw [this] at hj
        cases hj
      refine ⟨l, kvs, ?_, hj, hk, ?_⟩
      · simp [List.find?_cons, hp]
      · rw [scanFallbackLines_cons]
        simp only [hne, Bool.false_eq_true, if_false, hj, hk, if_pos]
    · have hscan : scanFallbackLines (l :: rest) = scanFallbackLines rest := by
        rw [scanFallbackLines_cons]
        unfold isOutcomeLine at hp
        by_cases hne : (pyStrip l).isEmpty = true
        · simp only [hne, if_pos]
        · simp only [Bool.not_eq_true] at hne
          simp only [hne, Bool.false_eq_true, if_false]
          match hj : jsonLoads (pyStrip l) with
          | some (.obj kvs) =>
            rw [hj] at hp
            simp only [Bool.not_eq_true] at hp
            simp [hj, hp]
          | some .null => simp [hj]
          | some (.bool _) => simp [hj]
          | some (.num _) => simp [hj]
          | some (.str _) => simp [hj]
          | some (.arr _) => simp [hj]
          | none => simp [hj]
      have hfind : (l :: rest).find? isOutcomeLine = rest.find? isOutcomeLine := by
        simp only [Bool.not_eq_true] at hp
        simp [List.find?_cons, hp]
      rw [hscan, hfind]
      exact ih

/-- C6: _parse_result follows the marker protocol.  When both result
markers occur, the substring strictly between them is the sole JSON
payload, parsed strictly, and that payload decides the result.  When the
markers are not both present, the last line (scanning from the end) that
parses as JSON and contains the outcome field "success" decides the
result; if no such line exists the raw stripped stream is returned as an
opaque string result. -/
theorem parse_result_follows_protocol (stdout : String) :
    (bothResultMarkers stdout = true →
      parse_result stdout =
        (match jsonLoads (pyStrip (betweenResultMarkers stdout)) with
         | none => .error (.runtimeError ("无法解析执行结果: " ++ jsonErrorDetail))
         | some d => decidePayload d))
    ∧ (bothResultMarkers stdout = false →
      ((∃ l kvs, lastOutcomeLine stdout = some l
          ∧ jsonLoads (pyStrip l) = some (.obj kvs)
          ∧ jHasKey kvs "success" = true
          ∧ parse_result stdout = outcomeOfPayload kvs)
       ∨ (lastOutcomeLine stdout = none
          ∧ parse_result stdout = .ok (.str (pyStrip stdout))))) := by
  constructor
  · intro hb
    have hboth : (findSubstr RESULT_START.data stdout.data).isSome = true
        ∧ (findSubstr RESULT_END.data stdout.data).isSome = true := by
      unfold bothResultMarkers containsSubstr at hb
      exact Bool.and_eq_true_iff.mp hb
    rcases hsi : findSubstr RESULT_START.data stdout.data with _ | si
    · rw [hsi] at hboth; cases hboth.1
    · rcases hei : findSubstr RESULT_END.data stdout.data with _ | ei
      · rw [hei] at hboth; cases hboth.2
      · unfold parse_result betweenResultMarkers
        simp only [hsi, hei]
        rfl
  · intro hb
    have hnotboth : ¬((findSubstr RESULT_START.data stdout.data).isSome = true
        ∧ (findSubstr RESULT_END.data stdout.data).isSome = true) := by
      unfold bothResultMarkers containsSubstr at hb
      intro hco
      rw [hco.1, hco.2] at hb
      cases hb
    have hfall : parse_result stdout =
        (match scanFallbackLines (splitNl (pyStrip stdout)).reverse with
         | some r => r
         | none => .ok (.str (pyStrip stdout))) := by
      rcases hsi : findSubstr RESULT_START.data stdout.data with _ | si
      · rcases hei : findSubstr RESULT_END.data stdout.data with _ | ei <;>
          simp only [parse_result, hsi, hei]
      · rcases hei : findSubstr RESULT_END.data stdout.data with _ | ei
        · simp only [parse_result, hsi, hei]
        · exact absurd ⟨by rw [hsi]; rfl, by rw [hei]; rfl⟩ hnotboth
    rcases scanFallbackLines_spec (splitNl (pyStrip stdout)).reverse with
      ⟨l, kvs, hfind, hj, hk, hscan⟩ | ⟨hfind, hscan⟩
    · left
      exact ⟨l, kvs, hfind, hj, hk, by rw [hfall, hscan]⟩
    · right
      exact ⟨hfind, by rw [hfall, hscan]⟩

/-- A marker-framed success stream used by the C6 witness. -/
def sampleFramedStdout : String :=
  "__RESULT_START__\n\x7b\"success\": true, \"result\": 5, \"type\": \"int\"\x7d\n__RESULT_END__\n"

/-- A marker-less stream used by the C6 witness. -/
def sampleBareStdout : String := "plain output"

/-- Witness for C6: both branches of the protocol at concrete streams. -/
theorem parse_result_follows_protocol_witness :
    (parse_result sampleFramedStdout =
      (match jsonLoads (pyStrip (betweenResultMarkers sampleFramedStdout)) with
       | none => .error (.runtimeError ("无法解析执行结果: " ++ jsonErrorDetail))
       | some d => decidePayload d))
    ∧ ((∃ l kvs, lastOutcomeLine sampleBareStdout = some l
        ∧ jsonLoads (pyStrip l) = some (.obj kvs)
        ∧ jHasKey kvs "success" = true
        ∧ parse_result sampleBareStdout = outcomeOfPayload kvs)
       ∨ (lastOutcomeLine sampleBareStdout = none
        ∧ parse_result sampleBareStdout = .ok (.str (pyStrip sampleBareStdout)))) :=
  ⟨(parse_result_follows_protocol sampleFramedStdout).1 (by decide),
   (parse_result_follows_protocol sampleBareStdout).2 (by decide)⟩

/-! ## Counting and well-formedness of the scheduler's graph view -/

/-- Number of connections into node v. -/
def inCnt (g : Graph) (v : Nat) : Nat :=
  (g.edges.filter (fun e => e.dst == v)).length

/-- Number of connections into v whose start node lies in os. -/
def cntFrom (g : Graph) (os : List Nat) (v : Nat) : Nat :=
  (g.edges.filter (fun e => e.dst == v && os.contains e.src)).length

/-- Well-formedness of the graph handed to the scheduler, as the editor
guarantees it: distinct nodes, distinct connection objects, connections
wired between listed nodes, and every connection ending on one of the
named, pairwise-distinct input ports of its end node. -/
structure GraphWF (g : Graph) : Prop where
  nodes_nodup : g.nodes.Nodup
  edges_nodup : g.edges.Nodup
  src_mem : ∀ e ∈ g.edges, e.src ∈ g.nodes
  dst_mem : ∀ e ∈ g.edges, e.dst ∈ g.nodes
  ports_nodup : ∀ n ∈ g.nodes, (g.inputPorts n).Nodup
  dstPort_mem : ∀ e ∈ g.edges, e.dstPort ∈ g.inputPorts e.dst

/-- The single-producer-per-input invariant of the data model: a
destination port accepts at most one connection. -/
def SingleProducer (g : Graph) : Prop :=
  ∀ e₁ ∈ g.edges, ∀ e₂ ∈ g.edges,
    e₁.dst = e₂.dst → e₁.dstPort = e₂.dstPort → e₁ = e₂

instance (g : Graph) : Decidable (SingleProducer g) := by
  unfold SingleProducer
  exact List.decidableBAll _ _

/-- One connection step of the connection relation. -/
def relPath (g : Graph) : Nat → Nat → Nat → Prop
  | 0, u, v => u = v
  | n+1, u, v => ∃ e ∈ g.edges, e.src = u ∧ relPath g n e.dst v

/-- Decidability of bounded paths. -/
def relPathDecidable (g : Graph) :
    ∀ (n u v : Nat), Decidable (relPath g n u v)
  | 0, u, v => by
    unfold relPath
    exact Nat.decEq u v
  | n+1, u, v => by
    unfold relPath
    haveI : ∀ e : Edge, Decidable (e.src = u ∧ relPath g n e.dst v) := fun e =>
      @instDecidableAnd _ _ _ (relPathDecidable g n e.dst v)
    exact List.decidableBEx _ g.edges

instance (g : Graph) (n u v : Nat) : Decidable (relPath g n u v) :=
  relPathDecidable g n u v

/-- The connection relation is a DAG: no node lies on a directed cycle
(cycles longer than the node count always contain a repeated node, hence
a shorter cycle, so the bound loses no generality and keeps the predicate
decidable). -/
def Acyclic (g : Graph) : Prop :=
  ∀ v ∈ g.nodes, ∀ n, n < g.nodes.length + 1 → 0 < n → ¬ relPath g n v v

instance (g : Graph) : Decidable (Acyclic g) := by
  unfold Acyclic
  exact List.decidableBAll _ g.nodes

/-- a occurs in the list strictly before an occurrence of b. -/
def appearsBefore (a b : Nat) : List Nat → Prop
  | [] => False
  | x :: xs => (x = a ∧ b ∈ xs) ∨ appearsBefore a b xs

/-- Decidability of appearsBefore. -/
def appearsBeforeDecidable (a b : Nat) :
    ∀ l : List Nat, Decidable (appearsBefore a b l)
  | [] => by unfold appearsBefore; exact instDecidableFalse
  | x :: xs => by
    unfold appearsBefore
    haveI := appearsBeforeDecidable a b xs
    exact instDecidableOr

instance (a b : Nat) (l : List Nat) : Decidable (appearsBefore a b l) :=
  appearsBeforeDecidable a b l

/-- Membership characterization of an input port's connection list. -/
theorem mem_inConns {g : Graph} {n : Nat} {p : String} {e : Edge} :
    e ∈ inConns g n p ↔ e ∈ g.edges ∧ e.dst = n ∧ e.dstPort = p := by
  unfold inConns
  simp [List.mem_filter, Bool.and_eq_true, beq_iff_eq, and_assoc]

/-- Membership characterization of a node's outgoing connection list. -/
theorem mem_outEdges {g : Graph} {n : Nat} {e : Edge} :
    e ∈ outEdges g n ↔ e ∈ g.edges ∧ e.src = n := by
  unfold outEdges
  simp [List.mem_filter, beq_iff_eq]

/-- Two nodup lists with the same members have the same length. -/
theorem length_eq_of_nodup_of_mem_iff {α : Type} [DecidableEq α]
    {l₁ l₂ : List α}
    (h₁ : l₁.Nodup) (h₂ : l₂.Nodup) (hm : ∀ x, x ∈ l₁ ↔ x ∈ l₂) :
    l₁.length = l₂.length := by
  have : l₁.toFinset = l₂.toFinset := by
    ext x
    simp [List.mem_toFinset, hm]
  calc l₁.length = l₁.toFinset.card := (List.toFinset_card_of_nodup h₁).symm
    _ = l₂.toFinset.card := by rw [this]
    _ = l₂.length := List.toFinset_card_of_nodup h₂

/-- Per-port counting lemma: under the single-producer invariant the
port-based initial in-degree equals the number of incoming
connections. -/
theorem initInDegree_eq_inCnt {g : Graph} (hwf : GraphWF g)
    (hsp : SingleProducer g) {v : Nat} (hv : v ∈ g.nodes) :
    initInDegree g v = (inCnt g v : Int) := by
  unfold initInDegree inCnt
  congr 1
  have hL : (g.edges.filter (fun e => e.dst == v)).Nodup :=
    hwf.edges_nodup.filter _
  have hLmem : ∀ e ∈ g.edges.filter (fun e => e.dst == v),
      e ∈ g.edges ∧ e.dst = v := by
    intro e he
    have := List.mem_filter.mp he
    exact ⟨this.1, by simpa using this.2⟩
  have hMnodup : ((g.edges.filter (fun e => e.dst == v)).map
      (fun e => e.dstPort)).Nodup := by
    refine List.Nodup.map_on ?_ hL
    intro e₁ h₁ e₂ h₂ hpp
    obtain ⟨he₁, hd₁⟩ := hLmem e₁ h₁
    obtain ⟨he₂, hd₂⟩ := hLmem e₂ h₂
    exact hsp e₁ he₁ e₂ he₂ (hd₁.trans hd₂.symm) hpp
  have hPnodup : ((g.inputPorts v).filter
      (fun p => !(inConns g v p).isEmpty)).Nodup :=
    (hwf.ports_nodup v hv).filter _
  rw [← List.length_map (g.edges.filter (fun e => e.dst == v))
    (fun e => e.dstPort)]
  refine length_eq_of_nodup_of_mem_iff hPnodup hMnodup ?_
  intro p
  constructor
  · intro hp
    obtain ⟨hmem, hne⟩ := List.mem_filter.mp hp
    match hc : inConns g v p with
    | [] => rw [hc] at hne; simp at hne
    | e :: _ =>
      have he : e ∈ inConns g v p := by rw [hc]; exact List.mem_cons_self _ _
      obtain ⟨heE, hdst, hport⟩ := mem_inConns.mp he
      refine List.mem_map.mpr ⟨e, ?_, hport⟩
      exact List.mem_filter.mpr ⟨heE, by simpa using hdst⟩
  · intro hp
    obtain ⟨e, heF, hport⟩ := List.mem_map.mp hp
    obtain ⟨heE, hdst⟩ := List.mem_filter.mp heF
    have hdst' : e.dst = v := by simpa using hdst
    refine List.mem_filter.mpr ⟨?_, ?_⟩
    · have := hwf.dstPort_mem e heE
      rw [hdst', hport] at this
      exact this
    · have he : e ∈ inConns g v p := mem_inConns.mpr ⟨heE, hdst', hport⟩
      match hc : inConns g v p with
      | [] => rw [hc] at he; cases he
      | _ :: _ => simp

/-- Filter length splits over a disjunction of disjoint predicates. -/
theorem length_filter_or_disjoint {α : Type} (p q : α → Bool) :
    ∀ l : List α, (∀ x ∈ l, ¬(p x = true ∧ q x = true)) →
    (l.filter (fun x => p x || q x)).length
      = (l.filter p).length + (l.filter q).length := by
  intro l
  induction l with
  | nil => intro _; simp
  | cons a t ih =>
    intro h
    have ht := ih (fun x hx => h x (List.mem_cons_of_mem _ hx))
    by_cases hp : p a = true
    · have hq : q a = false := by
        cases hqv : q a
        · rfl
        · exact absurd ⟨hp, hqv⟩ (h a (List.mem_cons_self _ _))
      simp [List.filter_cons, hp, hq, ht]
      omega
    · have hp' : p a = false := by
        cases hpv : p a
        · rfl
        · exact absurd hpv hp
      by_cases hq : q a = true
      · simp [List.filter_cons, hp', hq, ht]
        omega
      · have hq' : q a = false := by
          cases hqv : q a
          · rfl
          · exact absurd hqv hq
        simp [List.filter_cons, hp', hq', ht]

/-- No node has been visited yet: nothing is discounted. -/
theorem cntFrom_nil (g : Graph) (v : Nat) : cntFrom g [] v = 0 := by
  unfold cntFrom
  simp

/-- A node's outgoing connections into v are its connections counted
jointly by start and end. -/
theorem filter_outEdges_eq (g : Graph) (n v : Nat) :
    ((outEdges g n).filter (fun e => e.dst == v)).length
      = (g.edges.filter (fun e => e.dst == v && e.src == n)).length := by
  unfold outEdges
  rw [List.filter_filter]

/-- Extending the visited list by a fresh node adds exactly that node's
connections into v to the discounted count. -/
theorem cntFrom_append_single (g : Graph) {os : List Nat} {n : Nat}
    (v : Nat) (hn : n ∉ os) :
    cntFrom g (os ++ [n]) v
      = cntFrom g os v + ((outEdges g n).filter (fun e => e.dst == v)).length := by
  rw [filter_outEdges_eq]
  unfold cntFrom
  have hpred : ∀ e ∈ g.edges, (e.dst == v && (os ++ [n]).contains e.src)
      = ((e.dst == v && os.contains e.src) || (e.dst == v && e.src == n)) := by
    intro e _
    by_cases h1 : e.dst = v <;> by_cases h2 : e.src ∈ os <;>
      by_cases h3 : e.src = n <;> simp [h1, h2, h3]
  rw [List.filter_congr hpred]
  refine length_filter_or_disjoint _ _ _ ?_
  intro e _ ⟨hl, hr⟩
  have h2 : e.src ∈ os := by
    have := Bool.and_eq_true_iff.mp hl
    simpa using this.2
  have h3 : e.src = n := by
    have := Bool.and_eq_true_iff.mp hr
    simpa using this.2
  exact hn (h3 ▸ h2)

/-- Filter length splits by a second predicate. -/
theorem length_filter_split {α : Type} (p q : α → Bool) (l : List α) :
    (l.filter p).length
      = (l.filter (fun x => p x && q x)).length
        + (l.filter (fun x => p x && !q x)).length := by
  have hcongr : ∀ x ∈ l, p x = ((p x && q x) || (p x && !q x)) := by
    intro x _
    cases hp : p x <;> cases hq : q x <;> simp
  rw [List.filter_congr hcongr]
  refine length_filter_or_disjoint _ _ _ ?_
  intro x _ ⟨hl, hr⟩
  have h1 := (Bool.and_eq_true_iff.mp hl).2
  have h2 := (Bool.and_eq_true_iff.mp hr).2
  rw [h1] at h2
  cases h2

/-- If the discount account of v is full -- every incoming connection is
counted either from the visited nodes or among the already-processed
outgoing connections of the node n being expanded -- then every incoming
connection of v starts in the visited set or at n. -/
theorem preds_in_of_count {g : Graph} (hwf : GraphWF g)
    {v n : Nat}
    {out : List Nat} (hn : n ∉ out) {done' : List Edge}
    (hsubl : done'.Sublist (outEdges g n))
    (hcnt : inCnt g v = cntFrom g out v
      + (done'.filter (fun e => e.dst == v)).length) :
    ∀ e ∈ g.edges, e.dst = v → e.src ∈ out ∨ e.src = n := by
  have hsplit := length_filter_split (fun e : Edge => e.dst == v)
    (fun e => out.contains e.src) g.edges
  have hNF : inCnt g v = cntFrom g out v
      + (g.edges.filter (fun e => e.dst == v && !out.contains e.src)).length := by
    unfold inCnt cntFrom
    exact hsplit
  have hlen : (g.edges.filter (fun e => e.dst == v && !out.contains e.src)).length
      = (done'.filter (fun e => e.dst == v)).length := by omega
  have hDsub : ∀ e ∈ done'.filter (fun e => e.dst == v),
      e ∈ g.edges.filter (fun e => e.dst == v && !out.contains e.src) := by
    intro e he
    obtain ⟨hed, hdst⟩ := List.mem_filter.mp he
    have heo : e ∈ outEdges g n := hsubl.subset hed
    obtain ⟨heE, hsrc⟩ := mem_outEdges.mp heo
    refine List.mem_filter.mpr ⟨heE, ?_⟩
    have hnotin : e.src ∉ out := by rw [hsrc]; exact hn
    simp only [Bool.and_eq_true, hdst, true_and, Bool.not_eq_true']
    simpa using hnotin
  have hDnodup : (done'.filter (fun e => e.dst == v)).Nodup :=
    ((hwf.edges_nodup.filter _).sublist hsubl).filter _
  have hNFnodup : (g.edges.filter
      (fun e => e.dst == v && !out.contains e.src)).Nodup :=
    hwf.edges_nodup.filter _
  have hEq : ∀ e ∈ g.edges.filter (fun e => e.dst == v && !out.contains e.src),
      e ∈ done'.filter (fun e => e.dst == v) := by
    have hsubF : (done'.filter (fun e => e.dst == v)).toFinset
        ⊆ (g.edges.filter (fun e => e.dst == v && !out.contains e.src)).toFinset := by
      intro x hx
      exact List.mem_toFinset.mpr (hDsub x (List.mem_toFinset.mp hx))
    have hcards : (g.edges.filter
        (fun e => e.dst == v && !out.contains e.src)).toFinset.card
        ≤ (done'.filter (fun e => e.dst == v)).toFinset.card := by
      rw [List.toFinset_card_of_nodup hDnodup,
        List.toFinset_card_of_nodup hNFnodup]
      omega
    have := Finset.eq_of_subset_of_card_le hsubF hcards
    intro e he
    exact List.mem_toFinset.mp (this ▸ List.mem_toFinset.mpr he)
  intro e heE hdst
  by_cases hsrc : e.src ∈ out
  · exact Or.inl hsrc
  · right
    have heNF : e ∈ g.edges.filter
        (fun e => e.dst == v && !out.contains e.src) := by
      refine List.mem_filter.mpr ⟨heE, ?_⟩
      simp only [Bool.and_eq_true, beq_iff_eq, hdst, true_and,
        Bool.not_eq_true']
      simpa using hsrc
    have heD := hEq e heNF
    have hed : e ∈ done' := (List.mem_filter.mp heD).1
    have heo : e ∈ outEdges g n := hsubl.subset hed
    exact (mem_outEdges.mp heo).2

/-- The outer-loop invariant of the while-loop: `out` is the list of
dequeued (already appended) nodes, `queue` the pending queue, `deg` the
current in-degree account. -/
def KahnInv (g : Graph) (out queue : List Nat) (deg : Nat → Int) : Prop :=
  (out ++ queue).Nodup
  ∧ (∀ v ∈ out ++ queue, v ∈ g.nodes)
  ∧ (∀ v, deg v = initInDegree g v - (cntFrom g out v : Int))
  ∧ (∀ v ∈ queue, ∀ e ∈ g.edges, e.dst = v → e.src ∈ out)
  ∧ (∀ v ∈ g.nodes, v ∉ out → v ∉ queue → 1 ≤ deg v)
  ∧ (∀ v ∈ out ++ queue, deg v ≤ 0)

/-- The inner invariant while the outgoing connections of the freshly
dequeued node n are processed; `done` is the already-processed prefix. -/
def KahnInnerInv (g : Graph) (out : List Nat) (n : Nat) (done : List Edge)
    (queue : List Nat) (deg : Nat → Int) : Prop :=
  (out ++ n :: queue).Nodup
  ∧ (∀ v ∈ out ++ n :: queue, v ∈ g.nodes)
  ∧ (∀ v, deg v = initInDegree g v - (cntFrom g out v : Int)
      - ((done.filter (fun e => e.dst == v)).length : Int))
  ∧ (∀ v ∈ queue, ∀ e ∈ g.edges, e.dst = v → e.src ∈ out ++ [n])
  ∧ (∀ v ∈ g.nodes, v ∉ out → v ≠ n → v ∉ queue → 1 ≤ deg v)
  ∧ (∀ v ∈ out ++ n :: queue, deg v ≤ 0)

/-- One decrement step preserves the inner invariant. -/
theorem processConn_step {g : Graph} (hwf : GraphWF g)
    (hsp : SingleProducer g) {out : List Nat} {n : Nat} {done : List Edge}
    {queue : List Nat} {deg : Nat → Int} {e : Edge}
    (hinv : KahnInnerInv g out n done queue deg)
    (hsub : (done ++ [e]).Sublist (outEdges g n)) :
    KahnInnerInv g out n (done ++ [e]) (processConn (deg, queue) e).2
      (processConn (deg, queue) e).1 := by
  obtain ⟨hnd, hmem, hdeg, hq4, hj5, hj6⟩ := hinv
  have he : e ∈ outEdges g n := hsub.subset (by simp)
  obtain ⟨heE, hesrc⟩ := mem_outEdges.mp he
  have hnout : n ∉ out := by
    have hdisj := List.disjoint_of_nodup_append hnd
    intro hc
    exact hdisj hc (List.mem_cons_self _ _)
  have hw : e.dst ∈ g.nodes := hwf.dst_mem e heE
  have hdone_cnt : ∀ v,
      (((done ++ [e]).filter (fun x => x.dst == v)).length : Int)
        = ((done.filter (fun x => x.dst == v)).length : Int)
          + (if v = e.dst then 1 else 0) := by
    intro v
    rw [List.filter_append]
    by_cases hv : v = e.dst
    · subst hv; simp
    · have hne : (e.dst == v) = false := by
        simp only [beq_eq_false_iff_ne, ne_eq]
        exact fun hc => hv hc.symm
      simp [hne, hv]
  have hdeg' : (processConn (deg, queue) e).1
      = fun v => if v = e.dst then deg e.dst - 1 else deg v := rfl
  have hq' : (processConn (deg, queue) e).2
      = if deg e.dst - 1 = 0 then queue ++ [e.dst] else queue := rfl
  rw [hdeg', hq']
  by_cases hd : deg e.dst - 1 = 0
  · rw [if_pos hd]
    have hfresh : e.dst ∉ out ++ n :: queue := by
      intro hc
      have := hj6 _ hc
      omega
    have hrearr : out ++ n :: (queue ++ [e.dst])
        = (out ++ n :: queue) ++ [e.dst] := by simp
    refine ⟨?_, ?_, ?_, ?_, ?_, ?_⟩
    · rw [hrearr]
      refine List.Nodup.append hnd (List.nodup_singleton _) ?_
      intro a ha hb
      rw [List.mem_singleton] at hb
      subst hb
      exact hfresh ha
    · intro v hv
      rw [hrearr, List.mem_append, List.mem_singleton] at hv
      rcases hv with hv | rfl
      · exact hmem v hv
      · exact hw
    · intro v
      rw [hdone_cnt v]
      by_cases hv : v = e.dst
      · subst hv
        simp only [eq_self_iff_true, if_true]
        rw [hdeg e.dst]
        omega
      · simp only [if_neg hv]
        rw [hdeg v]
        omega
    · intro v hv e' he' hdst
      rw [List.mem_append, List.mem_singleton] at hv
      rcases hv with hv | rfl
      · exact hq4 v hv e' he' hdst
      · have hdegw : deg e.dst = 1 := by omega
        have hinitw := initInDegree_eq_inCnt hwf hsp hw
        have hdegw2 := hdeg e.dst
        have hcntEq : inCnt g e.dst = cntFrom g out e.dst
            + (((done ++ [e]).filter (fun x => x.dst == e.dst)).length) := by
          have h1 := hdone_cnt e.dst
          rw [if_pos rfl] at h1
          omega
        have := preds_in_of_count hwf hnout hsub hcntEq e' he' hdst
        rw [List.mem_append, List.mem_singleton]
        exact this
    · intro v hvn hvo hvne hvq
      rw [List.mem_append, List.mem_singleton] at hvq
      push_neg at hvq
      have hvq1 := hvq.1
      have hvne2 : v ≠ e.dst := hvq.2
      simp only [if_neg hvne2]
      exact hj5 v hvn hvo hvne hvq1
    · intro v hv
      rw [hrearr, List.mem_append, List.mem_singleton] at hv
      rcases hv with hv | rfl
      · by_cases hvd : v = e.dst
        · subst hvd; simp only [eq_self_iff_true, if_true]; omega
        · simp only [if_neg hvd]; exact hj6 v hv
      · simp only [eq_self_iff_true, if_true]; omega
  · rw [if_neg hd]
    refine ⟨hnd, hmem, ?_, hq4, ?_, ?_⟩
    · intro v
      rw [hdone_cnt v]
      by_cases hv : v = e.dst
      · subst hv
        simp only [eq_self_iff_true, if_true]
        rw [hdeg e.dst]
        omega
      · simp only [if_neg hv]
        rw [hdeg v]
        omega
    · intro v hvn hvo hvne hvq
      by_cases hvd : v = e.dst
      · subst hvd
        simp only [eq_self_iff_true, if_true]
        have := hj5 _ hvn hvo hvne hvq
        omega
      · simp only [if_neg hvd]
        exact hj5 v hvn hvo hvne hvq
    · intro v hv
      by_cases hvd : v = e.dst
      · subst hvd
        simp only [eq_self_iff_true, if_true]
        have := hj6 _ hv
        omega
      · simp only [if_neg hvd]
        exact hj6 v hv

/-- Folding the remaining outgoing connections preserves the inner
invariant up to the fully processed list. -/
theorem processOut_go {g : Graph} (hwf : GraphWF g) (hsp : SingleProducer g)
    {out : List Nat} {n : Nat} :
    ∀ (es done : List Edge) (queue : List Nat) (deg : Nat → Int),
      outEdges g n = done ++ es →
      KahnInnerInv g out n done queue deg →
      KahnInnerInv g out n (outEdges g n)
        (processOut es deg queue).2 (processOut es deg queue).1 := by
  intro es
  induction es with
  | nil =>
    intro done queue deg hout hinv
    have hdone : outEdges g n = done := by simpa using hout
    rw [hdone]
    exact hinv
  | cons e es' ih =>
    intro done queue deg hout hinv
    have hsub : (done ++ [e]).Sublist (outEdges g n) := by
      refine List.IsPrefix.sublist ⟨es', ?_⟩
      rw [hout]
      simp
    have hstep := processConn_step hwf hsp hinv hsub
    have hout' : outEdges g n = (done ++ [e]) ++ es' := by
      rw [hout]; simp
    have hfold : processOut (e :: es') deg queue
        = processOut es' (processConn (deg, queue) e).1
            (processConn (deg, queue) e).2 := by
      unfold processOut
      rfl
    rw [hfold]
    exact ih (done ++ [e]) _ _ hout' hstep

/-- Popping n and processing all its outgoing connections turns the outer
invariant at (out, n :: q) into the outer invariant at (out ++ [n], q'). -/
theorem kahnInv_step {g : Graph} (hwf : GraphWF g) (hsp : SingleProducer g)
    {out : List Nat} {n : Nat} {q : List Nat} {deg : Nat → Int}
    (hinv : KahnInv g out (n :: q) deg) :
    KahnInv g (out ++ [n])
      (processOut (outEdges g n) deg q).2
      (processOut (outEdges g n) deg q).1 := by
  obtain ⟨hnd, hmem, hdeg, hq4, hi5, hi6⟩ := hinv
  have hinner0 : KahnInnerInv g out n [] q deg := by
    refine ⟨hnd, hmem, ?_, ?_, ?_, hi6⟩
    · intro v
      rw [hdeg v]
      simp
    · intro v hv e he hdst
      exact List.mem_append_left _ (hq4 v (List.mem_cons_of_mem _ hv) e he hdst)
    · intro v hvn hvo hvne hvq
      refine hi5 v hvn hvo ?_
      intro hc
      rcases List.mem_cons.mp hc with hc | hc
      · exact hvne hc
      · exact hvq hc
  have hinner := processOut_go hwf hsp (outEdges g n) [] q deg (by simp) hinner0
  obtain ⟨hnd', hmem', hdeg', hq4', hj5', hj6'⟩ := hinner
  have hnout : n ∉ out := by
    have hdisj := List.disjoint_of_nodup_append hnd
    intro hc
    exact hdisj hc (List.mem_cons_self _ _)
  have hre : out ++ [n] ++ (processOut (outEdges g n) deg q).2
      = out ++ n :: (processOut (outEdges g n) deg q).2 := by simp
  refine ⟨?_, ?_, ?_, hq4', ?_, ?_⟩
  · rw [hre]; exact hnd'
  · intro v hv; rw [hre] at hv; exact hmem' v hv
  · intro v
    rw [hdeg' v, cntFrom_append_single g v hnout]
    push_cast
    ring
  · intro v hvn hvo hvq
    rw [List.mem_append, List.mem_singleton] at hvo
    push_neg at hvo
    exact hj5' v hvn hvo.1 hvo.2 hvq
  · intro v hv; rw [hre] at hv; exact hj6' v hv

/-- A nodup list of nodes at least as long as the node list exhausts it. -/
theorem mem_of_nodup_superlength {N out : List Nat} (hnd : out.Nodup)
    (hsub : ∀ v ∈ out, v ∈ N) (hlen : N.length ≤ out.length) :
    ∀ v ∈ N, v ∈ out := by
  have hsubF : out.toFinset ⊆ N.toFinset := by
    intro x hx
    exact List.mem_toFinset.mpr (hsub x (List.mem_toFinset.mp hx))
  have hcard : N.toFinset.card ≤ out.toFinset.card := by
    rw [List.toFinset_card_of_nodup hnd]
    calc N.toFinset.card ≤ N.length := List.toFinset_card_le _
      _ ≤ out.length := hlen
  have heq := Finset.eq_of_subset_of_card_le hsubF hcard
  intro v hv
  exact List.mem_toFinset.mp (heq ▸ List.mem_toFinset.mpr hv)

/-- An under-full discount account leaves an incoming connection from an
unvisited start node. -/
theorem exists_unvisited_pred {g : Graph} {out : List Nat} {w : Nat}
    (hlt : cntFrom g out w < inCnt g w) :
    ∃ e ∈ g.edges, e.dst = w ∧ e.src ∉ out := by
  by_contra hco
  push_neg at hco
  have hcongr : ∀ e ∈ g.edges,
      (e.dst == w && out.contains e.src) = (e.dst == w) := by
    intro e he
    by_cases hdst : e.dst = w
    · have := hco e he hdst
      simp [hdst, this]
    · simp [hdst]
  unfold cntFrom inCnt at hlt
  rw [List.filter_congr hcongr] at hlt
  omega

/-- A nonempty node set in which every member has an incoming connection
from within the set forces a directed cycle. -/
theorem cycle_of_selfSupporting {g : Graph} (S : List Nat) (hne : S ≠ [])
    (hsub : ∀ v ∈ S, v ∈ g.nodes)
    (hsupp : ∀ v ∈ S, ∃ e ∈ g.edges, e.dst = v ∧ e.src ∈ S) :
    ¬ Acyclic g := by
  classical
  have hf : ∀ v, ∃ u, v ∈ S →
      (u ∈ S ∧ ∃ e ∈ g.edges, e.src = u ∧ e.dst = v) := by
    intro v
    by_cases hv : v ∈ S
    · obtain ⟨e, he, hdst, hsrc⟩ := hsupp v hv
      exact ⟨e.src, fun _ => ⟨hsrc, e, he, rfl, hdst⟩⟩
    · exact ⟨0, fun hc => absurd hc hv⟩
  choose f hfS using hf
  obtain ⟨s₀, hs₀⟩ : ∃ s, s ∈ S := by
    match S, hne with
    | a :: _, _ => exact ⟨a, List.mem_cons_self _ _⟩
  have hiter : ∀ i, f^[i] s₀ ∈ S := by
    intro i
    induction i with
    | zero => simpa using hs₀
    | succ k ih =>
      rw [Function.iterate_succ_apply']
      exact (hfS _ ih).1
  have hpath : ∀ (d i : Nat), relPath g d (f^[i + d] s₀) (f^[i] s₀) := by
    intro d
    induction d with
    | zero => intro i; rfl
    | succ k ih =>
      intro i
      have hre : f^[i + (k+1)] s₀ = f (f^[i + k] s₀) := by
        rw [show i + (k+1) = (i + k) + 1 by ring,
          Function.iterate_succ_apply']
      show relPath g (k+1) (f^[i + (k+1)] s₀) (f^[i] s₀)
      rw [hre]
      obtain ⟨_, e, he, hsrc, hdst⟩ := hfS (f^[i+k] s₀) (hiter (i + k))
      exact ⟨e, he, hsrc, by rw [hdst]; exact ih i⟩
  intro hacy
  have key : ∀ a b : Nat, a < b → b ≤ g.nodes.length →
      f^[a] s₀ = f^[b] s₀ → False := by
    intro a b hab hb heq
    have hp := hpath (b - a) a
    rw [show a + (b - a) = b by omega] at hp
    rw [← heq] at hp
    exact hacy (f^[a] s₀) (hsub _ (hiter a)) (b - a) (by omega) (by omega) hp
  have hcard : g.nodes.toFinset.card
      < (Finset.univ : Finset (Fin (g.nodes.length + 1))).card := by
    rw [Finset.card_univ, Fintype.card_fin]
    exact Nat.lt_succ_of_le (List.toFinset_card_le _)
  obtain ⟨i, _, j, _, hij, heq⟩ :=
    Finset.exists_ne_map_eq_of_card_lt_of_maps_to hcard
      (fun (i : Fin (g.nodes.length + 1)) _ =>
        List.mem_toFinset.mpr (hsub _ (hiter i.1)))
  rcases Nat.lt_trichotomy i.1 j.1 with h | h | h
  · exact key i.1 j.1 h (by omega) heq
  · exact hij (Fin.ext h)
  · exact key j.1 i.1 h (by omega) heq.symm

/-- When the queue drains on an acyclic well-formed graph, every node has
been dequeued: otherwise the unvisited nodes would support each other and
force a cycle. -/
theorem kahn_complete_of_empty_queue {g : Graph} (hwf : GraphWF g)
    (hsp : SingleProducer g) {out : List Nat} {deg : Nat → Int}
    (hinv : KahnInv g out [] deg) (hacy : Acyclic g) :
    ∀ v ∈ g.nodes, v ∈ out := by
  obtain ⟨hnd, hmem, hdeg, hq4, hi5, hi6⟩ := hinv
  by_contra hco
  push_neg at hco
  obtain ⟨v₀, hv₀n, hv₀o⟩ := hco
  have hv₀S : v₀ ∈ g.nodes.filter (fun v => !out.contains v) :=
    List.mem_filter.mpr ⟨hv₀n, by simpa using hv₀o⟩
  refine cycle_of_selfSupporting (g := g)
    (g.nodes.filter (fun v => !out.contains v))
    (List.ne_nil_of_mem hv₀S)
    (fun v hv => (List.mem_filter.mp hv).1) ?_ hacy
  intro w hw
  have hwn := (List.mem_filter.mp hw).1
  have hwo : w ∉ out := by
    have := (List.mem_filter.mp hw).2
    simpa using this
  have hdegw : 1 ≤ deg w := hi5 w hwn hwo (by simp)
  have hdw := hdeg w
  have hinit := initInDegree_eq_inCnt hwf hsp hwn
  have hlt : cntFrom g out w < inCnt g w := by omega
  obtain ⟨e, he, hdst, hsrc⟩ := exists_unvisited_pred hlt
  exact ⟨e, he, hdst,
    List.mem_filter.mpr ⟨hwf.src_mem e he, by simpa using hsrc⟩⟩

/-- Master lemma of the while-loop: from any invariant state with enough
fuel, the emitted tail preserves distinctness and membership, respects
the connection order, exhausts the nodes when the graph is acyclic, and
never emits a member of a self-supporting node set disjoint from the
visited list. -/
theorem kahnLoop_master {g : Graph} (hwf : GraphWF g)
    (hsp : SingleProducer g) :
    ∀ (fuel : Nat) (queue out : List Nat) (deg : Nat → Int),
      KahnInv g out queue deg →
      g.nodes.length ≤ fuel + out.length →
      (out ++ kahnLoop g fuel deg queue).Nodup
      ∧ (∀ v ∈ kahnLoop g fuel deg queue, v ∈ g.nodes ∧ v ∉ out)
      ∧ (∀ e ∈ g.edges, e.dst ∈ kahnLoop g fuel deg queue →
          e.src ∈ out ∨ appearsBefore e.src e.dst (kahnLoop g fuel deg queue))
      ∧ (Acyclic g → ∀ v ∈ g.nodes, v ∈ out ∨ v ∈ kahnLoop g fuel deg queue)
      ∧ (∀ S : List Nat, (∀ v ∈ S, ∃ e ∈ g.edges, e.dst = v ∧ e.src ∈ S) →
          (∀ s ∈ S, s ∉ out) → ∀ s ∈ S, s ∉ kahnLoop g fuel deg queue) := by
  intro fuel
  induction fuel with
  | zero =>
    intro queue out deg hinv hlen
    obtain ⟨hnd, hmem, hdeg, hq4, hi5, hi6⟩ := hinv
    have hres : kahnLoop g 0 deg queue = [] := by
      unfold kahnLoop; rfl
    rw [hres]
    have hfull : ∀ v ∈ g.nodes, v ∈ out := by
      refine mem_of_nodup_superlength (hnd.sublist (List.sublist_append_left _ _))
        (fun v hv => hmem v (List.mem_append_left _ hv)) (by omega)
    refine ⟨by simpa using hnd.sublist (List.sublist_append_left _ _),
      ?_, ?_, ?_, ?_⟩
    · intro v hv; cases hv
    · intro e _ hv; cases hv
    · intro _ v hv; exact Or.inl (hfull v hv)
    · intro S _ _ s _ hc; cases hc
  | succ fuel ih =>
    intro queue out deg hinv hlen
    match queue with
    | [] =>
      obtain ⟨hnd, hmem, hdeg, hq4, hi5, hi6⟩ := hinv
      have hres : kahnLoop g (fuel + 1) deg [] = [] := rfl
      rw [hres]
      refine ⟨by simpa using hnd, ?_, ?_, ?_, ?_⟩
      · intro v hv; cases hv
      · intro e _ hv; cases hv
      · intro hacy v hv
        exact Or.inl (kahn_complete_of_empty_queue hwf hsp
          ⟨hnd, hmem, hdeg, hq4, hi5, hi6⟩ hacy v hv)
      · intro S _ _ s _ hc; cases hc
    | n :: q =>
      have hres : kahnLoop g (fuel + 1) deg (n :: q)
          = n :: kahnLoop g fuel (processOut (outEdges g n) deg q).1
              (processOut (outEdges g n) deg q).2 := rfl
      have hinv' := kahnInv_step hwf hsp hinv
      have hlen' : g.nodes.length ≤ fuel + (out ++ [n]).length := by
        rw [List.length_append]
        simp only [List.length_singleton]
        omega
      obtain ⟨ihA, ihB, ihC, ihD, ihF⟩ :=
        ih (processOut (outEdges g n) deg q).2 (out ++ [n])
          (processOut (outEdges g n) deg q).1 hinv' hlen'
      obtain ⟨hnd, hmem, hdeg, hq4, hi5, hi6⟩ := hinv
      have hnofq : n ∉ out := by
        have hdisj := List.disjoint_of_nodup_append hnd
        intro hc
        exact hdisj hc (List.mem_cons_self _ _)
      have hnnode : n ∈ g.nodes := hmem n (by simp)
      rw [hres]
      refine ⟨?_, ?_, ?_, ?_, ?_⟩
      · have : out ++ n :: kahnLoop g fuel (processOut (outEdges g n) deg q).1
            (processOut (outEdges g n) deg q).2
            = (out ++ [n]) ++ kahnLoop g fuel (processOut (outEdges g n) deg q).1
              (processOut (outEdges g n) deg q).2 := by simp
        rw [this]
        exact ihA
      · intro v hv
        rcases List.mem_cons.mp hv with rfl | hv
        · exact ⟨hnnode, hnofq⟩
        · obtain ⟨hvn, hvno⟩ := ihB v hv
          refine ⟨hvn, fun hc => hvno (List.mem_append_left _ hc)⟩
      · intro e he hdst
        by_cases hdn : e.dst = n
        · exact Or.inl (hq4 n (List.mem_cons_self _ _) e he hdn)
        · have hdst' : e.dst ∈ kahnLoop g fuel
              (processOut (outEdges g n) deg q).1
              (processOut (outEdges g n) deg q).2 := by
            rcases List.mem_cons.mp hdst with hc | hc
            · exact absurd hc hdn
            · exact hc
          rcases ihC e he hdst' with hsrc | hbef
          · rcases List.mem_append.mp hsrc with hsrc | hsrc
            · exact Or.inl hsrc
            · right
              rw [List.mem_singleton] at hsrc
              exact Or.inl ⟨hsrc.symm, hdst'⟩
          · exact Or.inr (Or.inr hbef)
      · intro hacy v hv
        rcases ihD hacy v hv with hvo | hvr
        · rcases List.mem_append.mp hvo with hvo | hvo
          · exact Or.inl hvo
          · rw [List.mem_singleton] at hvo
            exact Or.inr (by rw [hvo]; exact List.mem_cons_self _ _)
        · exact Or.inr (List.mem_cons_of_mem _ hvr)
      · intro S hsupp hdisj s hs hc
        have hnS : n ∉ S := by
          intro hnS
          obtain ⟨e, he, hdst, hsrc⟩ := hsupp n hnS
          have := hq4 n (List.mem_cons_self _ _) e he hdst
          exact hdisj e.src hsrc this
        have hdisj' : ∀ s ∈ S, s ∉ out ++ [n] := by
          intro t ht hco
          rcases List.mem_append.mp hco with hco | hco
          · exact hdisj t ht hco
          · rw [List.mem_singleton] at hco
            exact hnS (hco ▸ ht)
        rcases List.mem_cons.mp hc with rfl | hc
        · exact hnS hs
        · exact ihF S hsupp hdisj' s hs hc

/-- The invariant holds at the start of the while-loop: no node visited,
queue seeded with the zero-in-degree nodes, account at its initial
value. -/
theorem kahnInv_init {g : Graph} (hwf : GraphWF g) (hsp : SingleProducer g) :
    KahnInv g [] (g.nodes.filter (fun n => initInDegree g n == 0))
      (initInDegree g) := by
  have hqmem : ∀ v, v ∈ g.nodes.filter (fun n => initInDegree g n == 0)
      ↔ (v ∈ g.nodes ∧ initInDegree g v = 0) := by
    intro v
    rw [List.mem_filter]
    simp
  refine ⟨?_, ?_, ?_, ?_, ?_, ?_⟩
  · simpa using hwf.nodes_nodup.filter _
  · intro v hv
    rw [List.nil_append] at hv
    exact ((hqmem v).mp hv).1
  · intro v
    rw [cntFrom_nil]
    simp
  · intro v hv e he hdst
    obtain ⟨hvn, hdeg0⟩ := (hqmem v).mp hv
    have hinit := initInDegree_eq_inCnt hwf hsp hvn
    have hcnt : inCnt g v = 0 := by omega
    exfalso
    have hef : e ∈ g.edges.filter (fun x => x.dst == v) :=
      List.mem_filter.mpr ⟨he, by simpa using hdst⟩
    have : 0 < inCnt g v := by
      unfold inCnt
      exact List.length_pos_of_mem hef
    omega
  · intro v hvn _ hvq
    have hne : ¬ initInDegree g v = 0 := by
      intro hc
      exact hvq ((hqmem v).mpr ⟨hvn, hc⟩)
    unfold initInDegree at hne ⊢
    omega
  · intro v hv
    rw [List.nil_append] at hv
    have := ((hqmem v).mp hv).2
    omega

/-- C1: on a well-formed graph satisfying the single-producer-per-input
invariant whose connection relation is a DAG, topological_sort emits
every node exactly once, in an order where every node appears after all
nodes with a connection into it.  (Its initial in-degree account is,
definitionally, the count of input ports with at least one incoming
connection -- initInDegree -- not the count of connections.) -/
theorem topological_sort_topo_order {g : Graph} (hwf : GraphWF g)
    (hsp : SingleProducer g) (hacy : Acyclic g) :
    (topological_sort g).Nodup
    ∧ (∀ v, v ∈ topological_sort g ↔ v ∈ g.nodes)
    ∧ (∀ e ∈ g.edges, appearsBefore e.src e.dst (topological_sort g)) := by
  obtain ⟨hA, hB, hC, hD, _⟩ := kahnLoop_master hwf hsp g.nodes.length
    (g.nodes.filter (fun n => initInDegree g n == 0)) [] (initInDegree g)
    (kahnInv_init hwf hsp) (by simp)
  have hts : topological_sort g
      = kahnLoop g g.nodes.length (initInDegree g)
          (g.nodes.filter (fun n => initInDegree g n == 0)) := rfl
  rw [hts]
  refine ⟨by simpa using hA, ?_, ?_⟩
  · intro v
    constructor
    · intro hv
      exact (hB v hv).1
    · intro hv
      rcases hD hacy v hv with hc | hc
      · cases hc
      · exact hc
  · intro e he
    have hdst : e.dst ∈ kahnLoop g g.nodes.length (initInDegree g)
        (g.nodes.filter (fun n => initInDegree g n == 0)) := by
      rcases hD hacy e.dst (hwf.dst_mem e he) with hc | hc
      · cases hc
      · exact hc
    rcases hC e he hdst with hc | hc
    · cases hc
    · exact hc

/-- The C1/C2 witness graph: the four-node diamond 1 to 2, 1 to 3,
2 to 4, 3 to 4. -/
def diamondGraph : Graph :=
  { nodes := [1, 2, 3, 4]
    inputPorts := fun n =>
      if n = 2 then ["x"] else if n = 3 then ["y"]
      else if n = 4 then ["u", "v"] else []
    paramValues := fun _ _ => none
    edges := [⟨1, "o", 2, "x"⟩, ⟨1, "o", 3, "y"⟩,
      ⟨2, "o", 4, "u"⟩, ⟨3, "o", 4, "v"⟩] }

/-- Witness for C1 at the diamond graph. -/
theorem topological_sort_topo_order_witness :
    (topological_sort diamondGraph).Nodup
    ∧ (∀ v, v ∈ topological_sort diamondGraph ↔ v ∈ diamondGraph.nodes)
    ∧ (∀ e ∈ diamondGraph.edges,
        appearsBefore e.src e.dst (topological_sort diamondGraph)) :=
  topological_sort_topo_order
    (by constructor <;> decide) (by decide) (by decide)

/-- updAt reads back at other keys. -/
theorem updAt_ne {α : Type} (f : Nat → α) {n m : Nat} (v : α) (h : m ≠ n) :
    updAt f n v m = f m := by
  unfold updAt
  simp [h]

/-- updAt reads back at the written key. -/
theorem updAt_eq {α : Type} (f : Nat → α) (n : Nat) (v : α) :
    updAt f n v n = f n ∨ updAt f n v n = v := by
  unfold updAt
  simp

/-- A node not in the executed list keeps its state. -/
theorem execNodes_untouched (g : Graph)
    (ex : Nat → List (String × Option Json) → Except String Json) :
    ∀ (l : List Nat) (st : RunState) (n : Nat), n ∉ l →
      (execNodes g ex l st).1.status n = st.status n
      ∧ (execNodes g ex l st).1.result n = st.result n := by
  intro l
  induction l with
  | nil => intro st n _; exact ⟨rfl, rfl⟩
  | cons m rest ih =>
    intro st n hn
    have hnm : n ≠ m := fun hc => hn (hc ▸ List.mem_cons_self _ _)
    have hnr : n ∉ rest := fun hc => hn (List.mem_cons_of_mem _ hc)
    have hstep := ih (applyOutcome ⟨updAt st.status m .running, st.result⟩ m
      (ex m (gatherKwargs g ⟨updAt st.status m .running, st.result⟩ m))) n hnr
    unfold execNodes
    refine ⟨?_, ?_⟩
    · rw [hstep.1]
      match hout : ex m (gatherKwargs g ⟨updAt st.status m .running, st.result⟩ m) with
      | .ok v => simp [applyOutcome, hout, updAt_ne _ _ hnm]
      | .error msg => simp [applyOutcome, hout, updAt_ne _ _ hnm]
    · rw [hstep.2]
      match hout : ex m (gatherKwargs g ⟨updAt st.status m .running, st.result⟩ m) with
      | .ok v => simp [applyOutcome, hout, updAt_ne _ _ hnm]
      | .error msg => simp [applyOutcome, hout]

/-- The trace's node column is the executed list itself. -/
theorem execNodes_trace_nodes (g : Graph)
    (ex : Nat → List (String × Option Json) → Except String Json) :
    ∀ (l : List Nat) (st : RunState),
      (execNodes g ex l st).2.map Prod.fst = l := by
  intro l
  induction l with
  | nil => intro st; rfl
  | cons m rest ih =>
    intro st
    unfold execNodes
    simp only [List.map_cons]
    rw [ih]

/-- Final status and result of each executed node, according to its
recorded outcome, provided the executed list has no duplicates. -/
theorem execNodes_outcomes (g : Graph)
    (ex : Nat → List (String × Option Json) → Except String Json) :
    ∀ (l : List Nat) (st : RunState), l.Nodup →
      ∀ p ∈ (execNodes g ex l st).2,
        ((∀ m, p.2 = .error m → (execNodes g ex l st).1.status p.1 = .error m)
         ∧ (∀ v, p.2 = .ok v → (execNodes g ex l st).1.status p.1 = .success
            ∧ (execNodes g ex l st).1.result p.1 = some v)) := by
  intro l
  induction l with
  | nil => intro st _ p hp; cases hp
  | cons m rest ih =>
    intro st hnd p hp
    have hmr : m ∉ rest := (List.nodup_cons.mp hnd).1
    have hndr : rest.Nodup := (List.nodup_cons.mp hnd).2
    set st1 : RunState := ⟨updAt st.status m .running, st.result⟩ with hst1
    set o := ex m (gatherKwargs g st1 m) with ho
    set st2 := applyOutcome st1 m o with hst2
    have hunf : execNodes g ex (m :: rest) st
        = ((execNodes g ex rest st2).1,
           (m, o) :: (execNodes g ex rest st2).2) := rfl
    rw [hunf] at hp ⊢
    rcases List.mem_cons.mp hp with rfl | hp
    · have huntouched := execNodes_untouched g ex rest st2 m hmr
      refine ⟨?_, ?_⟩
      · intro msg hmsg
        have ho2 : o = Except.error msg := hmsg
        rw [huntouched.1, hst2, ho2]
        simp [applyOutcome, updAt]
      · intro v hv
        have ho2 : o = Except.ok v := hv
        rw [huntouched.1, huntouched.2, hst2, ho2]
        simp [applyOutcome, updAt]
    · exact ih st2 hndr p hp

/-- After the reset loop, every node of the graph is idle with no
result. -/
theorem resetAll_resets (g : Graph) (st : RunState) :
    ∀ n ∈ g.nodes, (resetAll g st).status n = .idle
      ∧ (resetAll g st).result n = none := by
  unfold resetAll
  suffices h : ∀ (l : List Nat) (st : RunState) (n : Nat),
      (n ∈ l ∨ (st.status n = .idle ∧ st.result n = none)) →
      ((l.foldl (fun s k =>
          (⟨updAt s.status k .idle, updAt s.result k none⟩ : RunState)) st).status n
        = .idle
      ∧ (l.foldl (fun s k =>
          (⟨updAt s.status k .idle, updAt s.result k none⟩ : RunState)) st).result n
        = none) by
    intro n hn
    exact h g.nodes st n (Or.inl hn)
  intro l
  induction l with
  | nil =>
    intro st n h
    rcases h with h | h
    · cases h
    · exact h
  | cons a t ih =>
    intro st n h
    simp only [List.foldl_cons]
    by_cases hna : n = a
    · subst hna
      refine ih _ n (Or.inr ?_)
      constructor <;> simp [updAt]
    · rcases h with h | h
      · rcases List.mem_cons.mp h with hc | hc
        · exact absurd hc hna
        · exact ih _ n (Or.inl hc)
      · refine ih _ n (Or.inr ?_)
        constructor
        · show updAt st.status a NodeStatus.idle n = _
          rw [updAt_ne _ _ hna]
          exact h.1
        · show updAt st.result a none n = _
          rw [updAt_ne _ _ hna]
          exact h.2

/-- The sorted order has no duplicates (no acyclicity needed). -/
theorem topological_sort_nodup {g : Graph} (hwf : GraphWF g)
    (hsp : SingleProducer g) : (topological_sort g).Nodup := by
  obtain ⟨hA, _, _, _, _⟩ := kahnLoop_master hwf hsp g.nodes.length
    (g.nodes.filter (fun n => initInDegree g n == 0)) [] (initInDegree g)
    (kahnInv_init hwf hsp) (by simp)
  simpa using hA

/-- Unfolding of execute_graph for a nonempty node list. -/
theorem execute_graph_eq {g : Graph}
    (ex : Nat → List (String × Option Json) → Except String Json)
    (st0 : RunState) (hne : g.nodes ≠ []) :
    execute_graph g ex st0
      = ((runTrace g ex st0).all (fun p => p.2.toBool),
         (execNodes g ex (topological_sort g) (resetAll g st0)).1) := by
  have hempty : ¬(g.nodes.isEmpty = true) := by
    intro hc
    exact hne (List.isEmpty_iff.mp hc)
  unfold execute_graph runTrace
  rw [if_neg hempty]

/-- C2: on execute_graph over a nonempty well-formed graph, every node of
the computed order is invoked exactly once and in order (so a failure
does not stop the remaining nodes); a failing invocation marks its node
Error carrying the failure message while a successful one marks it
Success and stores the result; and the boolean return is true exactly
when every invocation of the run succeeded. -/
theorem execute_graph_continue_on_error {g : Graph} (hwf : GraphWF g)
    (hsp : SingleProducer g) (hne : g.nodes ≠ [])
    (ex : Nat → List (String × Option Json) → Except String Json)
    (st0 : RunState) :
    (runTrace g ex st0).map Prod.fst = topological_sort g
    ∧ (∀ p ∈ runTrace g ex st0, ∀ m, p.2 = .error m →
        (execute_graph g ex st0).2.status p.1 = .error m)
    ∧ (∀ p ∈ runTrace g ex st0, ∀ v, p.2 = .ok v →
        (execute_graph g ex st0).2.status p.1 = .success
        ∧ (execute_graph g ex st0).2.result p.1 = some v)
    ∧ ((execute_graph g ex st0).1 = true
        ↔ ∀ p ∈ runTrace g ex st0, ∃ v, p.2 = .ok v) := by
  have hnodup := topological_sort_nodup hwf hsp
  have heq := execute_graph_eq ex st0 hne
  have htr : runTrace g ex st0
      = (execNodes g ex (topological_sort g) (resetAll g st0)).2 := rfl
  refine ⟨?_, ?_, ?_, ?_⟩
  · rw [htr]
    exact execNodes_trace_nodes g ex _ _
  · intro p hp m hm
    rw [heq]
    rw [htr] at hp
    exact (execNodes_outcomes g ex _ _ hnodup p hp).1 m hm
  · intro p hp v hv
    rw [heq]
    rw [htr] at hp
    exact (execNodes_outcomes g ex _ _ hnodup p hp).2 v hv
  · rw [heq]
    simp only [List.all_eq_true]
    constructor
    · intro h p hp
      have := h p hp
      match hb : p.2 with
      | .ok v => exact ⟨v, rfl⟩
      | .error m => rw [hb] at this; cases this
    · intro h p hp
      obtain ⟨v, hv⟩ := h p hp
      rw [hv]
      rfl

/-- The C2 witness invocation: node 3 of the diamond fails, the others
succeed. -/
def witnessExec : Nat → List (String × Option Json) → Except String Json :=
  fun n _ => if n = 3 then .error "boom" else .ok (.num (n : Int))

/-- An arbitrary dirty pre-run state for the scheduler witnesses. -/
def witnessSt0 : RunState := ⟨fun _ => .running, fun _ => some .null⟩

/-- Witness for C2 at the diamond graph with a failing node. -/
theorem execute_graph_continue_on_error_witness :
    (runTrace diamondGraph witnessExec witnessSt0).map Prod.fst
        = topological_sort diamondGraph
    ∧ (∀ p ∈ runTrace diamondGraph witnessExec witnessSt0, ∀ m,
        p.2 = .error m →
        (execute_graph diamondGraph witnessExec witnessSt0).2.status p.1
          = .error m)
    ∧ (∀ p ∈ runTrace diamondGraph witnessExec witnessSt0, ∀ v,
        p.2 = .ok v →
        (execute_graph diamondGraph witnessExec witnessSt0).2.status p.1
          = .success
        ∧ (execute_graph diamondGraph witnessExec witnessSt0).2.result p.1
          = some v)
    ∧ ((execute_graph diamondGraph witnessExec witnessSt0).1 = true
        ↔ ∀ p ∈ runTrace diamondGraph witnessExec witnessSt0,
            ∃ v, p.2 = .ok v) :=
  execute_graph_continue_on_error (by constructor <;> decide) (by decide)
    (by decide) witnessExec witnessSt0

/-- C9: on a well-formed graph (with the model's single-producer
invariant), take any nonempty node set S in which every member has an
incoming connection starting inside S -- the node set of any directed
cycle is such a set, and so is its extension by the nodes reachable only
through the cycle.  topological_sort silently omits every member of S,
and execute_graph raises no error for it: the omitted nodes are never
invoked and keep their reset status (idle, no result) while the run
proceeds over the scheduled nodes and returns the conjunction of their
outcomes. -/
theorem cycle_nodes_silently_omitted {g : Graph} (hwf : GraphWF g)
    (hsp : SingleProducer g) (S : List Nat) (hSne : S ≠ [])
    (hSsub : ∀ v ∈ S, v ∈ g.nodes)
    (hSsupp : ∀ v ∈ S, ∃ e ∈ g.edges, e.dst = v ∧ e.src ∈ S)
    (ex : Nat → List (String × Option Json) → Except String Json)
    (st0 : RunState) :
    (∀ s ∈ S, s ∉ topological_sort g)
    ∧ (∀ p ∈ runTrace g ex st0, p.1 ∉ S)
    ∧ (∀ s ∈ S, (execute_graph g ex st0).2.status s = .idle
        ∧ (execute_graph g ex st0).2.result s = none)
    ∧ ((execute_graph g ex st0).1 = true
        ↔ ∀ p ∈ runTrace g ex st0, ∃ v, p.2 = .ok v) := by
  obtain ⟨_, _, _, _, hF⟩ := kahnLoop_master hwf hsp g.nodes.length
    (g.nodes.filter (fun n => initInDegree g n == 0)) [] (initInDegree g)
    (kahnInv_init hwf hsp) (by simp)
  have homit : ∀ s ∈ S, s ∉ topological_sort g := by
    intro s hs
    exact hF S hSsupp (fun t _ hc => by cases hc) s hs
  have hne : g.nodes ≠ [] := by
    obtain ⟨s₀, hs₀⟩ : ∃ s, s ∈ S := by
      match S, hSne with
      | a :: _, _ => exact ⟨a, List.mem_cons_self _ _⟩
    intro hc
    rw [hc] at hSsub
    cases hSsub s₀ hs₀
  have heq := execute_graph_eq ex st0 hne
  have htr : runTrace g ex st0
      = (execNodes g ex (topological_sort g) (resetAll g st0)).2 := rfl
  refine ⟨homit, ?_, ?_, ?_⟩
  · intro p hp hpS
    have hmap : p.1 ∈ (runTrace g ex st0).map Prod.fst :=
      List.mem_map_of_mem _ hp
    rw [htr, execNodes_trace_nodes] at hmap
    exact homit p.1 hpS hmap
  · intro s hs
    have hsn : s ∈ g.nodes := hSsub s hs
    have hreset := resetAll_resets g st0 s hsn
    have huntouched := execNodes_untouched g ex (topological_sort g)
      (resetAll g st0) s (homit s hs)
    rw [heq]
    exact ⟨huntouched.1.trans hreset.1, huntouched.2.trans hreset.2⟩
  · rw [heq]
    simp only [List.all_eq_true]
    constructor
    · intro h p hp
      have := h p hp
      match hb : p.2 with
      | .ok v => exact ⟨v, rfl⟩
      | .error m => rw [hb] at this; cases this
    · intro h p hp
      obtain ⟨v, hv⟩ := h p hp
      rw [hv]
      rfl

/-- The C9 witness graph: node 1 standalone, nodes 2 and 3 in a
two-cycle. -/
def cyclicGraph : Graph :=
  { nodes := [1, 2, 3]
    inputPorts := fun n => if n = 2 then ["a"] else if n = 3 then ["b"] else []
    paramValues := fun _ _ => none
    edges := [⟨3, "o", 2, "a"⟩, ⟨2, "o", 3, "b"⟩] }

/-- Witness for C9 at the two-cycle graph with S the cycle itself. -/
theorem cycle_nodes_silently_omitted_witness :
    (∀ s ∈ [2, 3], s ∉ topological_sort cyclicGraph)
    ∧ (∀ p ∈ runTrace cyclicGraph witnessExec witnessSt0, p.1 ∉ [2, 3])
    ∧ (∀ s ∈ [2, 3],
        (execute_graph cyclicGraph witnessExec witnessSt0).2.status s = .idle
        ∧ (execute_graph cyclicGraph witnessExec witnessSt0).2.result s = none)
    ∧ ((execute_graph cyclicGraph witnessExec witnessSt0).1 = true
        ↔ ∀ p ∈ runTrace cyclicGraph witnessExec witnessSt0,
            ∃ v, p.2 = .ok v) :=
  cycle_nodes_silently_omitted (by constructor <;> decide) (by decide)
    [2, 3] (by decide) (by decide) (by decide) witnessExec witnessSt0
